import Mathlib

/-!
Verification development for the docx block codec (extractor / validator /
reconstructor).  The JavaScript sources are shallowly embedded:

* XML nodes (`@xmldom/xmldom` DOM trees of `word/document.xml`) are modelled by
  the inductive `XNode`; element nodes carry their tag name, attribute list and
  child list, text nodes carry their string.  `nodeType === 1` corresponds to
  the `elem` constructor.
* JSON values flowing through the validator are modelled by `JVal`, including
  the JavaScript `undefined` value, so that property access, truthiness,
  `typeof`, and strict equality can be modelled faithfully.  Property access on
  `null`/`undefined` throws in JavaScript; the validator is therefore embedded
  in the `Except Unit` monad, `.error ()` standing for a thrown `TypeError`.
* `extractDocx` is modelled from the point where `word/document.xml` has been
  parsed: `extractDocument` receives the child list of the `w:body` element,
  the heading-style map built from `word/styles.xml`, and the `fileName` /
  `extractedAt` metadata strings (the timestamp is a parameter because
  `new Date().toISOString()` is impure).
-/

namespace DocxCodec

/-! ### XML node model -/

inductive XNode where
  | txt (s : String)
  | elem (name : String) (attrs : List (String × String)) (children : List XNode)
deriving Repr

/-- `nodeName`: tag name for elements, `#text` for text nodes. -/
def nodeName : XNode → String
  | .txt _ => "#text"
  | .elem n _ _ => n

/-- `getAttribute` (absent attribute ↦ `null`, modelled as `none`). -/
def getAttr (node : XNode) (name : String) : Option String :=
  match node with
  | .txt _ => none
  | .elem _ attrs _ => (attrs.find? (fun p => p.1 == name)).map (·.2)

/-- `getFirstChild(parent, tagName)` from extractor.js. -/
def getFirstChild (parent : XNode) (tagName : String) : Option XNode :=
  match parent with
  | .txt _ => none
  | .elem _ _ cs => cs.find? (fun c => nodeName c == tagName)

/-- `getDirectChildren(parent, tagName)` from extractor.js. -/
def getDirectChildren (parent : XNode) (tagName : String) : List XNode :=
  match parent with
  | .txt _ => []
  | .elem _ _ cs => cs.filter (fun c => nodeName c == tagName)

mutual
/-- DOM `textContent`: concatenation of all descendant text. -/
def textContent : XNode → String
  | .txt s => s
  | .elem _ _ cs => textContentList cs

def textContentList : List XNode → String
  | [] => ""
  | c :: rest => textContent c ++ textContentList rest
end

/-! ### JavaScript string helpers (`trim`, `parseInt`) -/

/-- JavaScript whitespace (the characters relevant to `\s` / `trim`). -/
def isJsWs (c : Char) : Bool :=
  c == ' ' || c == '\t' || c == '\n' || c == '\r' || c == '\x0b' || c == '\x0c' ||
  c == ' '

def jsTrimList (cs : List Char) : List Char :=
  ((cs.dropWhile isJsWs).reverse.dropWhile isJsWs).reverse

/-- JavaScript `String.prototype.trim`. -/
def jsTrim (s : String) : String :=
  (jsTrimList s.toList).asString

def digitsVal (ds : List Char) : Int :=
  ds.foldl (fun acc c => acc * 10 + Int.ofNat (c.toNat - '0'.toNat)) 0

/-- JavaScript `parseInt(s, 10)`; `none` models `NaN`. -/
def parseIntJS (s : String) : Option Int :=
  match s.toList.dropWhile isJsWs with
  | '-' :: rest =>
    let ds := rest.takeWhile Char.isDigit
    if ds.isEmpty then none else some (-(digitsVal ds))
  | '+' :: rest =>
    let ds := rest.takeWhile Char.isDigit
    if ds.isEmpty then none else some (digitsVal ds)
  | cs =>
    let ds := cs.takeWhile Char.isDigit
    if ds.isEmpty then none else some (digitsVal ds)

/-- `parseInt(attr, 10)` where `attr` may be `null` (→ `NaN`). -/
def parseIntAttr (a : Option String) : Option Int :=
  a.bind parseIntJS

/-! ### Plain text (`getPlainText`) -/

mutual
/-- `getPlainText(node)`: collects `w:t` text, tabs and breaks, skipping
`w:pPr`/`w:rPr` subtrees and bare text-node children. -/
def getPlainText : XNode → String
  | .txt _ => ""
  | .elem _ _ cs => getPlainTextList cs

/-- Contribution of one child in the `getPlainText` loop. -/
def getPlainTextChild : XNode → String
  | .txt _ => ""
  | .elem n _ cs =>
    if n = "w:t" then textContentList cs
    else if n = "w:tab" then "\t"
    else if n = "w:br" then "\n"
    else if n = "w:pPr" ∨ n = "w:rPr" then ""
    else getPlainTextList cs

def getPlainTextList : List XNode → String
  | [] => ""
  | c :: rest => getPlainTextChild c ++ getPlainTextList rest
end

/-! ### Formatted text (`**bold**` / `*italic*`) -/

/-- `hasBoolProp(rPr, propName)`: a `w:val` of `'0'` or `'false'` disables the
property, any other value (or an absent attribute) enables it. -/
def hasBoolProp (rPr : Option XNode) (propName : String) : Bool :=
  match rPr with
  | none => false
  | some r =>
    match getFirstChild r propName with
    | none => false
    | some prop =>
      match getAttr prop "w:val" with
      | none => true
      | some v => v != "0" && v != "false"

structure Segment where
  text : String
  bold : Bool
  italic : Bool
deriving Repr, DecidableEq

/-- The inner loop of `collectFormattedSegments` over a run's children. -/
def runChildSegs (bold italic : Bool) : List XNode → List Segment
  | [] => []
  | .txt _ :: rest => runChildSegs bold italic rest
  | .elem n _ cs :: rest =>
    (if n = "w:t" then [⟨textContentList cs, bold, italic⟩]
     else if n = "w:tab" then [⟨"\t", false, false⟩]
     else if n = "w:br" then [⟨"\n", false, false⟩]
     else []) ++ runChildSegs bold italic rest

mutual
/-- `collectFormattedSegments(node, segments)` (returning the pushed segments):
walks direct children, reading runs and descending into hyperlinks. -/
def collectFormattedSegments : XNode → List Segment
  | .txt _ => []
  | .elem _ _ cs => collectSegsList cs

/-- Contribution of one child in the `collectFormattedSegments` loop. -/
def collectSegsChild : XNode → List Segment
  | .txt _ => []
  | .elem n a cs =>
    if n = "w:r" then
      runChildSegs
        (hasBoolProp (getFirstChild (.elem n a cs) "w:rPr") "w:b")
        (hasBoolProp (getFirstChild (.elem n a cs) "w:rPr") "w:i") cs
    else if n = "w:hyperlink" then collectSegsList cs
    else []

def collectSegsList : List XNode → List Segment
  | [] => []
  | c :: rest => collectSegsChild c ++ collectSegsList rest
end

/-- The fold inside `mergeSegments`, carrying the current merged segment. -/
def mergeRun (cur : Segment) : List Segment → List Segment
  | [] => [cur]
  | s :: rest =>
    if cur.bold = s.bold ∧ cur.italic = s.italic then
      mergeRun ⟨cur.text ++ s.text, cur.bold, cur.italic⟩ rest
    else cur :: mergeRun s rest

/-- `mergeSegments`: merge consecutive segments with identical flags. -/
def mergeSegments : List Segment → List Segment
  | [] => []
  | s :: rest => mergeRun s rest

/-- The rendering loop of `getFormattedText` (empty segments skipped). -/
def renderSegments : List Segment → String
  | [] => ""
  | seg :: rest =>
    (if seg.text = "" then ""
     else if seg.bold ∧ seg.italic then "***" ++ seg.text ++ "***"
     else if seg.bold then "**" ++ seg.text ++ "**"
     else if seg.italic then "*" ++ seg.text ++ "*"
     else seg.text) ++ renderSegments rest

/-- `getFormattedText(pNode)`. -/
def getFormattedText (pNode : XNode) : String :=
  renderSegments (mergeSegments (collectFormattedSegments pNode))

/-! ### Image detection -/

mutual
/-- Whether any strict descendant element of the node has the given tag
(`getElementsByTagName(tag).length > 0`). -/
def hasTagDeep (tag : String) : XNode → Bool
  | .txt _ => false
  | .elem _ _ cs => hasTagDeepList tag cs

/-- Whether this child is, or contains, an element with the given tag. -/
def hasTagDeepChild (tag : String) : XNode → Bool
  | .txt _ => false
  | .elem n _ cs => n == tag || hasTagDeepList tag cs

def hasTagDeepList (tag : String) : List XNode → Bool
  | [] => false
  | c :: rest => hasTagDeepChild tag c || hasTagDeepList tag rest
end

/-- `hasImage(node)`. -/
def hasImage (node : XNode) : Bool :=
  hasTagDeep "w:drawing" node || hasTagDeep "w:pict" node ||
  hasTagDeep "mc:AlternateContent" node

/-- `isImageOnlyParagraph(pNode)`. -/
def isImageOnlyParagraph (pNode : XNode) : Bool :=
  hasImage pNode && jsTrim (getPlainText pNode) == ""

/-! ### Heading detection by numbered pattern -/

/-- The separator class `[\.\-–—:)]` of the first heading regex. -/
def sepClassChar (c : Char) : Bool :=
  c == '.' || c == '-' || c == '–' || c == '—' || c == ':' || c == ')'

/-- Uppercase/accented letters accepted by the second heading regex. -/
def isUpperHeadingChar (c : Char) : Bool :=
  ('A' ≤ c && c ≤ 'Z') || c == 'Á' || c == 'À' || c == 'Â' || c == 'Ã' ||
  c == 'É' || c == 'È' || c == 'Ê' || c == 'Í' || c == 'Ï' || c == 'Ó' ||
  c == 'Ô' || c == 'Õ' || c == 'Ö' || c == 'Ú' || c == 'Ç'

/-- `\s*[sep]` succeeds at this position iff the first non-whitespace
character is in the separator class (separators are not whitespace). -/
def sepFollows (cs : List Char) : Bool :=
  match cs.dropWhile isJsWs with
  | [] => false
  | c :: _ => sepClassChar c

/-- Rests of the input after each further `(?:\.\d+)` iteration of the first
regex, starting from the rest after the leading `\d+`.  Fuel-driven so the
definition reduces in the kernel; `fuel = cs.length` always suffices, as each
iteration consumes at least two characters. -/
def moreCompRests (fuel : Nat) (cs : List Char) : List (List Char) :=
  match fuel with
  | 0 => []
  | fuel + 1 =>
    match cs with
    | '.' :: r =>
      let ds := r.takeWhile Char.isDigit
      if ds.isEmpty then []
      else
        let r2 := r.dropWhile Char.isDigit
        r2 :: moreCompRests fuel r2
    | _ => []

/-- Largest 1-based iteration count whose rest is followed by a separator:
the regex engine keeps the greedy (longest) choice of `(?:\.\d+)*` that lets
the rest of the pattern match. -/
def lastSepIdx : List (List Char) → Nat → Option Nat
  | [], _ => none
  | r :: rs, k =>
    match lastSepIdx rs (k + 1) with
    | some j => some j
    | none => if sepFollows r then some k else none

/-- Backtracking semantics of `/^(\d+(?:\.\d+)*)\s*[\.\-–—:)]\s*/`: the
matched group is the longest dotted numeral prefix that is followed (after
optional whitespace) by a separator; the result is its component count. -/
def matchDottedPattern (cs : List Char) : Option Nat :=
  let d1 := cs.takeWhile Char.isDigit
  if d1.isEmpty then none
  else
    let r1 := cs.dropWhile Char.isDigit
    lastSepIdx (r1 :: moreCompRests r1.length r1) 1

/-- Semantics of `/^(\d+)\s+[A-ZÁÀÂÃÉÈÊÍÏÓÔÕÖÚÇ]/`. -/
def matchBareIntPattern (cs : List Char) : Option Nat :=
  let ds := cs.takeWhile Char.isDigit
  if ds.isEmpty then none
  else
    let r := cs.dropWhile Char.isDigit
    if (r.takeWhile isJsWs).isEmpty then none
    else
      match r.dropWhile isJsWs with
      | c :: _ => if isUpperHeadingChar c then some 1 else none
      | [] => none

/-- `detectHeadingByPattern(text)`: dotted-numeral heading level, else bare
integer + uppercase letter ↦ level 1, else `null`. -/
def detectHeadingByPattern (text : String) : Option Nat :=
  let cs := jsTrimList text.toList
  match matchDottedPattern cs with
  | some k => some k
  | none => matchBareIntPattern cs

/-! ### List detection -/

/-- `isListItem(pNode)`: a `w:numPr` inside `w:pPr`. -/
def isListItem (pNode : XNode) : Bool :=
  match getFirstChild pNode "w:pPr" with
  | none => false
  | some pPr => (getFirstChild pPr "w:numPr").isSome

/-- `getListLevel(pNode)`: `(parseInt(ilvl) || 0) + 1`. -/
def getListLevel (pNode : XNode) : Int :=
  match getFirstChild pNode "w:pPr" with
  | none => 1
  | some pPr =>
    match getFirstChild pPr "w:numPr" with
    | none => 1
    | some numPr =>
      match getFirstChild numPr "w:ilvl" with
      | none => 1
      | some ilvl => (parseIntAttr (getAttr ilvl "w:val")).getD 0 + 1

/-! ### Paragraph classification -/

structure PClass where
  type : String
  level : Option Int
  text : String
deriving Repr, DecidableEq

/-- Success condition of step 1 of `classifyParagraph`: the paragraph style id
is truthy and resolves in the heading-style map. -/
def styleHeadingLevel (pNode : XNode) (headingStyles : List (String × Int)) :
    Option Int :=
  match getFirstChild pNode "w:pPr" with
  | none => none
  | some pPr =>
    match getFirstChild pPr "w:pStyle" with
    | none => none
    | some pStyle =>
      match getAttr pStyle "w:val" with
      | none => none
      | some styleVal =>
        if styleVal = "" then none
        else (headingStyles.find? (fun p => p.1 == styleVal)).map (·.2)

/-- Success condition of step 2 of `classifyParagraph`: an explicit
`w:outlineLvl` whose value parses (`!isNaN`); level is `lvl + 1`. -/
def outlineHeadingLevel (pNode : XNode) : Option Int :=
  match getFirstChild pNode "w:pPr" with
  | none => none
  | some pPr =>
    match getFirstChild pPr "w:outlineLvl" with
    | none => none
    | some o => (parseIntAttr (getAttr o "w:val")).map (· + 1)

/-- `classifyParagraph(pNode, headingStyles)`. -/
def classifyParagraph (pNode : XNode) (headingStyles : List (String × Int)) :
    PClass :=
  let formattedText := jsTrim (getFormattedText pNode)
  match styleHeadingLevel pNode headingStyles with
  | some l => ⟨"heading", some l, formattedText⟩
  | none =>
    match outlineHeadingLevel pNode with
    | some l => ⟨"heading", some l, formattedText⟩
    | none =>
      match detectHeadingByPattern (jsTrim (getPlainText pNode)) with
      | some k => ⟨"heading", some (Int.ofNat k), formattedText⟩
      | none =>
        if isListItem pNode then ⟨"list_item", some (getListLevel pNode), formattedText⟩
        else ⟨"paragraph", none, formattedText⟩

/-! ### Blocks and documents -/

structure JCell where
  id : String
  text : String
deriving Repr, DecidableEq

structure Block where
  id : String
  type : String
  text : Option String := none
  level : Option Int := none
  rows : Option (List (List JCell)) := none
deriving Repr, DecidableEq

/-- JavaScript `String(n).padStart(4, '0')`. -/
def padStart4 (s : String) : String :=
  if s.length ≥ 4 then s else String.mk (List.replicate (4 - s.length) '0') ++ s

def fmtBlockId (i : Nat) : String := "block_" ++ padStart4 (Nat.repr i)

def fmtCellId (i r c : Nat) : String :=
  "cell_" ++ padStart4 (Nat.repr i) ++ "_" ++ Nat.repr r ++ "_" ++ Nat.repr c

/-- `extractTable(tblNode, index)`. -/
def extractTable (tblNode : XNode) (index : Nat) : Block :=
  let rows := (getDirectChildren tblNode "w:tr").enum.map (fun ri =>
    ((getDirectChildren ri.2 "w:tc").enum.map (fun ci =>
      ({ id := fmtCellId index ri.1 ci.1,
         text := jsTrim (String.intercalate "\n"
           ((getDirectChildren ci.2 "w:p").map getFormattedText)) } : JCell))))
  { id := fmtBlockId index, type := "table", rows := some rows }

/-- The `w:p` branch of the extraction loop: skip image-only paragraphs and
paragraphs whose trimmed plain text is empty (the index is still consumed by
the caller), otherwise classify.  `block.level` is present exactly when the
classification carries a level (headings and list items). -/
def extractParagraphBlock (headingStyles : List (String × Int)) (pNode : XNode)
    (index : Nat) : Option Block :=
  if isImageOnlyParagraph pNode then none
  else if jsTrim (getPlainText pNode) = "" then none
  else some { id := fmtBlockId index,
              type := (classifyParagraph pNode headingStyles).type,
              text := some (classifyParagraph pNode headingStyles).text,
              level := (classifyParagraph pNode headingStyles).level }

/-- The body traversal of `extractDocx`: direct element children, `w:p` and
`w:tbl` each consume one index whether or not a block is emitted. -/
def extractBlocksLoop (headingStyles : List (String × Int)) :
    List XNode → Nat → List Block
  | [], _ => []
  | .txt _ :: rest, idx => extractBlocksLoop headingStyles rest idx
  | .elem n a cs :: rest, idx =>
    if n = "w:p" then
      match extractParagraphBlock headingStyles (.elem n a cs) idx with
      | some b => b :: extractBlocksLoop headingStyles rest (idx + 1)
      | none => extractBlocksLoop headingStyles rest (idx + 1)
    else if n = "w:tbl" then
      extractTable (.elem n a cs) idx :: extractBlocksLoop headingStyles rest (idx + 1)
    else extractBlocksLoop headingStyles rest idx

/-- The title pass of `extractDocx`: scan from the start, stop at the first
heading or table, retitle the first paragraph otherwise. -/
def assignTitle : List Block → List Block
  | [] => []
  | b :: rest =>
    if b.type = "heading" ∨ b.type = "table" then b :: rest
    else if b.type = "paragraph" then { b with type := "title" } :: rest
    else b :: assignTitle rest

structure DocMetadata where
  fileName : String
  extractedAt : String
  blockCount : Nat
  tableCount : Nat
deriving Repr, DecidableEq

structure Document where
  metadata : DocMetadata
  blocks : List Block
deriving Repr, DecidableEq

/-- `extractDocx` after XML parsing: from the `w:body` child list and the
heading-style map to the extracted Document. -/
def extractDocument (bodyChildren : List XNode)
    (headingStyles : List (String × Int)) (fileName extractedAt : String) :
    Document :=
  let blocks := assignTitle (extractBlocksLoop headingStyles bodyChildren 0)
  { metadata :=
      { fileName := if fileName = "" then "document.docx" else fileName,
        extractedAt := extractedAt,
        blockCount := blocks.length,
        tableCount := (blocks.filter (fun b => b.type == "table")).length },
    blocks := blocks }

/-! ### Reconstructor traversal (id → original node map) -/

/-- The common indexed traversal both components perform: direct element
children named `w:p` or `w:tbl`, in document order, paired with the
monotonically increasing index each consumes. -/
def traverseIndexed : List XNode → Nat → List (Nat × XNode)
  | [], _ => []
  | .txt _ :: rest, idx => traverseIndexed rest idx
  | .elem n a cs :: rest, idx =>
    if n = "w:p" ∨ n = "w:tbl" then (idx, .elem n a cs) :: traverseIndexed rest (idx + 1)
    else traverseIndexed rest idx

/-- The map-building loop of `reconstructDocx` (lines 803–835): every `w:p`
and every `w:tbl` direct child is recorded under `block_%04d` of its index. -/
def buildOriginalBlockNodes : List XNode → Nat → List (String × XNode)
  | [], _ => []
  | .txt _ :: rest, idx => buildOriginalBlockNodes rest idx
  | .elem n a cs :: rest, idx =>
    if n = "w:p" then
      (fmtBlockId idx, .elem n a cs) :: buildOriginalBlockNodes rest (idx + 1)
    else if n = "w:tbl" then
      (fmtBlockId idx, .elem n a cs) :: buildOriginalBlockNodes rest (idx + 1)
    else buildOriginalBlockNodes rest idx

/-- `Map.get` on the id → node map (keys are pairwise distinct, so the first
match is the binding). -/
def lookupNode (m : List (String × XNode)) (k : String) : Option XNode :=
  (m.find? (fun p => p.1 == k)).map (·.2)

/-- Per-node block emission, the body-child cases of the extraction loop. -/
def emitBlock (headingStyles : List (String × Int)) (idx : Nat) (node : XNode) :
    Option Block :=
  match node with
  | .txt _ => none
  | .elem n _ _ =>
    if n = "w:p" then extractParagraphBlock headingStyles node idx
    else if n = "w:tbl" then some (extractTable node idx)
    else none

/-- Whether a body child consumes an index. -/
def isBlockNode : XNode → Bool
  | .txt _ => false
  | .elem n _ _ => n == "w:p" || n == "w:tbl"

/-! ### Markdown parsing (`parseMarkdown`, reconstructor.js)

Semantics of the global regex `(\*\*\*(.+?)\*\*\*|\*\*(.+?)\*\*|\*(.+?)\*)`:
at each position, the three alternatives are tried in order; `.+?` is lazy and
`.` does not match a newline. -/

/-- Lazy `(.+?)closing`: consume non-newline characters one at a time,
stopping at the first point where `closing` follows; at least one character is
consumed.  Returns the body and the rest after `closing`. -/
def lazyBody (closing : List Char) : List Char → Option (List Char × List Char)
  | [] => none
  | c :: rest =>
    if c = '\n' then none
    else if closing.isPrefixOf rest then some ([c], rest.drop closing.length)
    else
      match lazyBody closing rest with
      | some (body, after) => some (c :: body, after)
      | none => none

/-- Alternative `\*\*\*(.+?)\*\*\*`. -/
def tryTriple (cs : List Char) : Option (Segment × List Char) :=
  match cs with
  | '*' :: '*' :: '*' :: rest =>
    (lazyBody ['*', '*', '*'] rest).map (fun p => (⟨p.1.asString, true, true⟩, p.2))
  | _ => none

/-- Alternative `\*\*(.+?)\*\*`. -/
def tryDouble (cs : List Char) : Option (Segment × List Char) :=
  match cs with
  | '*' :: '*' :: rest =>
    (lazyBody ['*', '*'] rest).map (fun p => (⟨p.1.asString, true, false⟩, p.2))
  | _ => none

/-- Alternative `\*(.+?)\*`. -/
def trySingle (cs : List Char) : Option (Segment × List Char) :=
  match cs with
  | '*' :: rest =>
    (lazyBody ['*'] rest).map (fun p => (⟨p.1.asString, false, true⟩, p.2))
  | _ => none

/-- One match attempt at the current position: `***…***` before `**…**`
before `*…*`. -/
def tryEmphAt (cs : List Char) : Option (Segment × List Char) :=
  match tryTriple cs with
  | some r => some r
  | none =>
    match tryDouble cs with
    | some r => some r
    | none => trySingle cs

/-- The `exec` scan loop: unmatched characters accumulate (reversed) in
`pending` and are flushed as plain segments, exactly like the
`match.index > lastIndex` gap pushes and the final tail push.  Fuel-driven so
the definition reduces in the kernel; every step consumes at least one input
character, so `fuel = cs.length + 1` always suffices. -/
def scanMarkdown (fuel : Nat) (pending cs : List Char) : List Segment :=
  match fuel with
  | 0 =>
    if (pending.reverse ++ cs).isEmpty then []
    else [⟨(pending.reverse ++ cs).asString, false, false⟩]
  | fuel + 1 =>
    match cs with
    | [] => if pending.isEmpty then [] else [⟨pending.reverse.asString, false, false⟩]
    | c :: rest =>
      match tryEmphAt (c :: rest) with
      | some (seg, after) =>
        (if pending.isEmpty then [] else [⟨pending.reverse.asString, false, false⟩]) ++
          seg :: scanMarkdown fuel [] after
      | none => scanMarkdown fuel (c :: pending) rest

/-- `parseMarkdown(text)` from reconstructor.js. -/
def parseMarkdown (text : String) : List Segment :=
  if text = "" then [⟨"", false, false⟩]
  else
    let segs := scanMarkdown (text.length + 1) [] text.toList
    if segs.isEmpty then [⟨text, false, false⟩] else segs

/-! ### JavaScript value model for the validator -/

inductive JVal where
  | undefined
  | null
  | bool (b : Bool)
  | num (n : Int)
  | str (s : String)
  | arr (elems : List JVal)
  | obj (fields : List (String × JVal))

/-- JavaScript truthiness. -/
def jsTruthy : JVal → Bool
  | .undefined => false
  | .null => false
  | .bool b => b
  | .num n => n != 0
  | .str s => s != ""
  | .arr _ => true
  | .obj _ => true

/-- JavaScript `typeof`. -/
def jsTypeof : JVal → String
  | .undefined => "undefined"
  | .null => "object"
  | .bool _ => "boolean"
  | .num _ => "number"
  | .str _ => "string"
  | .arr _ => "object"
  | .obj _ => "object"

def jsNullish : JVal → Bool
  | .undefined => true
  | .null => true
  | _ => false

/-- JavaScript strict equality / SameValueZero on JSON-derived values:
primitives compare structurally; two objects or arrays in distinct JSON trees
are distinct references, hence never equal. -/
def jvalKeyEq : JVal → JVal → Bool
  | .undefined, .undefined => true
  | .null, .null => true
  | .bool a, .bool b => a == b
  | .num a, .num b => a == b
  | .str a, .str b => a == b
  | _, _ => false

mutual
/-- JavaScript `String(v)` for JSON-derived values. -/
def jsToString : JVal → String
  | .undefined => "undefined"
  | .null => "null"
  | .bool true => "true"
  | .bool false => "false"
  | .num n => n.repr
  | .str s => s
  | .arr xs => jsToStringElems xs
  | .obj _ => "[object Object]"

/-- Array elements stringify with `null`/`undefined` as empty. -/
def jsToStringElem : JVal → String
  | .undefined => ""
  | .null => ""
  | .bool true => "true"
  | .bool false => "false"
  | .num n => n.repr
  | .str s => s
  | .arr xs => jsToStringElems xs
  | .obj _ => "[object Object]"

def jsToStringElems : List JVal → String
  | [] => ""
  | [x] => jsToStringElem x
  | x :: rest => jsToStringElem x ++ "," ++ jsToStringElems rest
end

/-- Property access on a non-nullish value (total): object field lookup,
`length` of arrays and strings, `undefined` otherwise. -/
def jgetTotal : JVal → String → JVal
  | .obj fields, f => ((fields.find? (fun p => p.1 == f)).map (·.2)).getD .undefined
  | .arr xs, f => if f = "length" then .num (Int.ofNat xs.length) else .undefined
  | .str s, f => if f = "length" then .num (Int.ofNat s.length) else .undefined
  | _, _ => .undefined

/-- Property access `v.f`; throws (`.error ()`) on `null`/`undefined`. -/
def jgetOrThrow (v : JVal) (f : String) : Except Unit JVal :=
  if jsNullish v then .error () else .ok (jgetTotal v f)

/-- Numeric indexing `v[i]` on a non-nullish value. -/
def jsIndex : JVal → Nat → JVal
  | .arr xs, i => (xs.get? i).getD .undefined
  | .str s, i => ((s.toList.get? i).map (fun c => JVal.str (String.singleton c))).getD .undefined
  | .obj fields, i => ((fields.find? (fun p => p.1 == Nat.repr i)).map (·.2)).getD .undefined
  | _, _ => .undefined

/-! ### The validator (`validateModifiedJson`, validator.js) -/

structure VResult where
  valid : Bool
  errors : List String
deriving Repr, DecidableEq

def validTypesList : List String := ["title", "heading", "paragraph", "list_item", "table"]

/-- `Set.prototype.has` on the seen-id set. -/
def seenHas (seen : List JVal) (v : JVal) : Bool :=
  seen.any (fun x => jvalKeyEq x v)

/-- `Map.prototype.set` (replaces the value of an existing key). -/
def mapSet (m : List (JVal × JVal)) (k v : JVal) : List (JVal × JVal) :=
  if m.any (fun p => jvalKeyEq p.1 k) then
    m.map (fun p => if jvalKeyEq p.1 k then (p.1, v) else p)
  else m ++ [(k, v)]

/-- `Map.prototype.get` (`undefined` when absent). -/
def mapGet (m : List (JVal × JVal)) (k : JVal) : JVal :=
  ((m.find? (fun p => jvalKeyEq p.1 k)).map (·.2)).getD .undefined

/-- The `originalBlockMap` building loop; `block.id` throws on a nullish
element. -/
def buildMapLoop : List JVal → List (JVal × JVal) → Except Unit (List (JVal × JVal))
  | [], m => .ok m
  | b :: rest, m =>
    match jgetOrThrow b "id" with
    | .error e => .error e
    | .ok id => buildMapLoop rest (mapSet m id b)

def buildOrigMap (original : JVal) : Except Unit (List (JVal × JVal)) :=
  if jsTruthy original then
    match jgetTotal original "blocks" with
    | .arr l => buildMapLoop l []
    | _ => .ok []
  else .ok []

/-- `${prefix} (${block.id})`. -/
def pfxId (i : Nat) (bid : JVal) : String :=
  "Bloco " ++ Nat.repr i ++ " (" ++ jsToString bid ++ ")"

/-- `typeof v === 'number' && v >= 1` (negation of the level complaint). -/
def isNumGE1 : JVal → Bool
  | .num n => n ≥ 1
  | _ => false

/-- The cell loop inside a table row. -/
def validateCellsLoop (p : String) (r : Nat) :
    List JVal → Nat → List JVal → List String → List JVal × List String
  | [], _, seen, errs => (seen, errs)
  | cell :: rest, c, seen, errs =>
    let cp := p ++ ", célula [" ++ Nat.repr r ++ "][" ++ Nat.repr c ++ "]"
    if ¬ jsTruthy cell ∨ jsTypeof cell ≠ "object" then
      validateCellsLoop p r rest (c + 1) seen (errs ++ [cp ++ ": ausente ou inválida."])
    else
      let cid := jgetTotal cell "id"
      let e1 := if ¬ jsTruthy cid ∨ jsTypeof cid ≠ "string" then
          [cp ++ ": campo \"id\" ausente."] else []
      let e2 := if seenHas seen cid then
          [cp ++ ": ID duplicado \"" ++ jsToString cid ++ "\"."] else []
      let seen2 := if jsTruthy cid then cid :: seen else seen
      let e3 := if jsTypeof (jgetTotal cell "text") ≠ "string" then
          [cp ++ ": campo \"text\" deve ser string."] else []
      validateCellsLoop p r rest (c + 1) seen2 (errs ++ e1 ++ e2 ++ e3)

/-- The row loop of a table block. -/
def validateRowsLoop (p : String) :
    List JVal → Nat → List JVal → List String → List JVal × List String
  | [], _, seen, errs => (seen, errs)
  | row :: rest, r, seen, errs =>
    match row with
    | .arr cells =>
      let sr := validateCellsLoop p r cells 0 seen errs
      validateRowsLoop p rest (r + 1) sr.1 sr.2
    | _ =>
      validateRowsLoop p rest (r + 1) seen
        (errs ++ [p ++ ", linha " ++ Nat.repr r ++ ": deve ser um array de células."])

/-- The per-row cell-count comparison of the table-geometry stage (reached
only when the row counts agree; `origRows` is known non-nullish there). -/
def geoRowsLoop (p : String) (origRows : JVal) : List JVal → Nat → List String
  | [], _ => []
  | brow :: rest, r =>
    (let orow := jsIndex origRows r
     if jsTruthy brow ∧ jsTruthy orow ∧
         ¬ jvalKeyEq (jgetTotal brow "length") (jgetTotal orow "length") then
       [p ++ ", linha " ++ Nat.repr r ++ ": número de células alterado de " ++
         jsToString (jgetTotal orow "length") ++ " para " ++
         jsToString (jgetTotal brow "length") ++ "."]
     else []) ++ geoRowsLoop p origRows rest (r + 1)

/-- The table-geometry stage (validator.js lines 151–166):
`origBlock.rows.length` throws when the original's `rows` is nullish. -/
def tableGeometry (p : String) (blockRows : List JVal) (origRows : JVal) :
    Except Unit (List String) :=
  match jgetOrThrow origRows "length" with
  | .error e => .error e
  | .ok origLen =>
    if ¬ jvalKeyEq (.num (Int.ofNat blockRows.length)) origLen then
      .ok [p ++ ": número de linhas alterado de " ++ jsToString origLen ++
        " para " ++ Nat.repr blockRows.length ++ "."]
    else
      .ok (geoRowsLoop p origRows blockRows 0)

/-- The body of one iteration of the block loop; returns the updated seen-id
set and the errors pushed for this block. -/
def validateBlock (origMap : List (JVal × JVal)) (i : Nat) (block : JVal)
    (seen : List JVal) : Except Unit (List JVal × List String) :=
  let pfx := "Bloco " ++ Nat.repr i
  if ¬ jsTruthy block ∨ jsTypeof block ≠ "object" then
    .ok (seen, [pfx ++ ": bloco ausente ou inválido."])
  else
    let bid := jgetTotal block "id"
    if ¬ jsTruthy bid ∨ jsTypeof bid ≠ "string" then
      .ok (seen, [pfx ++ ": campo \"id\" ausente ou inválido."])
    else
      let p := pfxId i bid
      let dupErrs := if seenHas seen bid then [p ++ ": ID duplicado."] else []
      let seen1 := bid :: seen
      let btype := jgetTotal block "type"
      if ¬ validTypesList.any (fun t => jvalKeyEq btype (.str t)) then
        .ok (seen1, dupErrs ++
          [p ++ ": tipo \"" ++ jsToString btype ++ "\" inválido. Use: heading, paragraph, table."])
      else
        let origBlock := mapGet origMap bid
        let crossErrs :=
          if jsTruthy origBlock then
            (if ¬ jvalKeyEq btype (jgetTotal origBlock "type") then
               [p ++ ": tipo alterado de \"" ++ jsToString (jgetTotal origBlock "type") ++
                 "\" para \"" ++ jsToString btype ++
                 "\" — blocos existentes devem manter o tipo."]
             else []) ++
            (if jvalKeyEq (jgetTotal origBlock "type") (.str "heading") ∧
                jvalKeyEq btype (.str "heading") ∧
                ¬ jvalKeyEq (jgetTotal block "level") (jgetTotal origBlock "level") then
               [p ++ ": nível do heading alterado de " ++
                 jsToString (jgetTotal origBlock "level") ++ " para " ++
                 jsToString (jgetTotal block "level") ++ "."]
             else [])
          else []
        let textErr :=
          if jsTypeof (jgetTotal block "text") ≠ "string" then
            [p ++ ": campo \"text\" deve ser uma string."] else []
        let typeShapeErrs :=
          (if jvalKeyEq btype (.str "heading") then
             (if isNumGE1 (jgetTotal block "level") then []
              else [p ++ ": heading deve ter \"level\" numérico >= 1."]) ++ textErr
           else []) ++
          (if jvalKeyEq btype (.str "title") then textErr else []) ++
          (if jvalKeyEq btype (.str "paragraph") then textErr else []) ++
          (if jvalKeyEq btype (.str "list_item") then
             textErr ++
             (if isNumGE1 (jgetTotal block "level") then []
              else [p ++ ": list_item deve ter \"level\" numérico >= 1."])
           else [])
        if jvalKeyEq btype (.str "table") then
          match jgetTotal block "rows" with
          | .arr rows =>
            match (if jsTruthy origBlock ∧
                jvalKeyEq (jgetTotal origBlock "type") (.str "table") then
                  tableGeometry p rows (jgetTotal origBlock "rows")
                else .ok []) with
            | .error e => .error e
            | .ok geoErrs =>
              .ok ((validateRowsLoop p rows 0 seen1 []).1,
                dupErrs ++ crossErrs ++ typeShapeErrs ++
                  (validateRowsLoop p rows 0 seen1 []).2 ++ geoErrs)
          | _ =>
            .ok (seen1, dupErrs ++ crossErrs ++ typeShapeErrs ++
              [p ++ ": campo \"rows\" deve ser um array."])
        else .ok (seen1, dupErrs ++ crossErrs ++ typeShapeErrs)

def validateBlocksLoop (origMap : List (JVal × JVal)) :
    List JVal → Nat → List JVal → List String → Except Unit (List String)
  | [], _, _, errs => .ok errs
  | b :: rest, i, seen, errs =>
    match validateBlock origMap i b seen with
    | .error e => .error e
    | .ok se => validateBlocksLoop origMap rest (i + 1) se.1 (errs ++ se.2)

/-- `validateModifiedJson(modified, original)`; `.error ()` models a thrown
`TypeError`. -/
def validateModifiedJson (modified original : JVal) : Except Unit VResult :=
  if ¬ jsTruthy modified ∨ jsTypeof modified ≠ "object" then
    .ok ⟨false, ["JSON deve ser um objeto."]⟩
  else
    match jgetTotal modified "blocks" with
    | .arr bl =>
      match buildOrigMap original with
      | .error e => .error e
      | .ok m =>
        match validateBlocksLoop m bl 0 []
            (if ¬ jsTruthy (jgetTotal modified "metadata") ∨
                jsTypeof (jgetTotal modified "metadata") ≠ "object" then
              ["Campo \"metadata\" ausente ou inválido."]
            else []) with
        | .error e => .error e
        | .ok errs => .ok ⟨errs.isEmpty, errs⟩
    | _ => .ok ⟨false, ["Campo \"blocks\" deve ser um array."]⟩

/-! ### Documents as JSON values -/

def cellToJVal (c : JCell) : JVal :=
  .obj [("id", .str c.id), ("text", .str c.text)]

def blockToJVal (b : Block) : JVal :=
  .obj ([("id", .str b.id), ("type", .str b.type)] ++
    (match b.text with | some t => [("text", JVal.str t)] | none => []) ++
    (match b.level with | some l => [("level", JVal.num l)] | none => []) ++
    (match b.rows with
     | some rs => [("rows", JVal.arr (rs.map (fun row => JVal.arr (row.map cellToJVal))))]
     | none => []))

def docToJVal (d : Document) : JVal :=
  .obj [("metadata", .obj
          [("fileName", .str d.metadata.fileName),
           ("extractedAt", .str d.metadata.extractedAt),
           ("blockCount", .num (Int.ofNat d.metadata.blockCount)),
           ("tableCount", .num (Int.ofNat d.metadata.tableCount))]),
        ("blocks", .arr (d.blocks.map blockToJVal))]

/-! ### Well-formedness (the §3 Document shape) -/

/-- All ids a block carries: its own id and, for tables, every cell id. -/
def blockIds (b : Block) : List String :=
  b.id :: (match b.rows with
           | some rs => (rs.map (fun row => row.map (·.id))).flatten
           | none => [])

def docIds (d : Document) : List String :=
  (d.blocks.map blockIds).flatten

/-- The §3 shape of a single block: a tagged variant with exactly the fields
of its kind, levels at least 1, and non-empty ids. -/
def WFBlock (b : Block) : Prop :=
  b.id ≠ "" ∧
  ((b.type = "title" ∧ b.text.isSome ∧ b.level = none ∧ b.rows = none) ∨
   (b.type = "paragraph" ∧ b.text.isSome ∧ b.level = none ∧ b.rows = none) ∨
   (b.type = "heading" ∧ b.text.isSome ∧ b.rows = none ∧
     b.level.isSome ∧ 1 ≤ b.level.getD 0) ∨
   (b.type = "list_item" ∧ b.text.isSome ∧ b.rows = none ∧
     b.level.isSome ∧ 1 ≤ b.level.getD 0) ∨
   (b.type = "table" ∧ b.text = none ∧ b.level = none ∧ b.rows.isSome ∧
     ∀ row ∈ b.rows.getD [], ∀ c ∈ row, c.id ≠ ""))

/-- The §3 Document shape: well-formed blocks and globally unique ids (block
ids and table-cell ids share one namespace). -/
def WFDoc (d : Document) : Prop :=
  (∀ b ∈ d.blocks, WFBlock b) ∧ (docIds d).Nodup

instance : DecidablePred WFBlock := fun b => by
  unfold WFBlock; infer_instance

instance (d : Document) : Decidable (WFDoc d) := by
  unfold WFDoc; infer_instance

/-! ### Concrete fixtures used by witnesses and counterexamples -/

def mkText (s : String) : XNode := .elem "w:t" [] [.txt s]

/-- A `w:r` run, optionally with a `w:rPr` holding the given property tags. -/
def mkRun (props : List String) (content : List XNode) : XNode :=
  .elem "w:r" []
    (if props.isEmpty then content
     else .elem "w:rPr" [] (props.map (fun f => .elem f [] [])) :: content)

def mkPara (cs : List XNode) : XNode := .elem "w:p" [] cs

/-- Three adjacent runs `a` (bold), `b` (italic), `c` (bold+italic). -/
def exThreeRuns : XNode :=
  mkPara [mkRun ["w:b"] [mkText "a"], mkRun ["w:i"] [mkText "b"],
    mkRun ["w:b", "w:i"] [mkText "c"]]

/-- The same three formatted runs separated by plain-space runs. -/
def exFiveRuns : XNode :=
  mkPara [mkRun ["w:b"] [mkText "a"], mkRun [] [mkText " "],
    mkRun ["w:i"] [mkText "b"], mkRun [] [mkText " "],
    mkRun ["w:b", "w:i"] [mkText "c"]]

/-- A bold run containing `a`, a tab, and `b`. -/
def exTabRun : XNode :=
  mkPara [mkRun ["w:b"] [mkText "a", .elem "w:tab" [] [], mkText "b"]]

/-- A single-paragraph body (`Hello`). -/
def exHelloChildren : List XNode := [mkPara [mkRun [] [mkText "Hello"]]]

def exHelloDoc : Document := extractDocument exHelloChildren [] "f.docx" "t0"

/-- A paragraph with an explicit outline level of `-1`: classified as a
heading of level `0`. -/
def exBadOutlinePara : XNode :=
  mkPara [.elem "w:pPr" [] [.elem "w:outlineLvl" [("w:val", "-1")] []],
    mkRun [] [mkText "x"]]

def exBadOutlineDoc : Document := extractDocument [exBadOutlinePara] [] "f.docx" "t0"

/-- A numbered-heading paragraph (`1. OBJETIVO`). -/
def exNumberedPara : XNode := mkPara [mkRun [] [mkText "1. OBJETIVO"]]

def exCell (i : String) : JVal := .obj [("id", .str i), ("text", .str "x")]

/-- Original with one level-1 heading at `block_0002`. -/
def exOrigHeading : JVal :=
  .obj [("blocks", .arr [.obj [("id", .str "block_0002"), ("type", .str "heading"),
    ("level", .num 1), ("text", .str "t")]])]

/-- Candidate keeping `block_0002` as a heading but with level 2. -/
def exCandLevel2 : JVal :=
  .obj [("metadata", .obj []), ("blocks", .arr [.obj [("id", .str "block_0002"),
    ("type", .str "heading"), ("level", .num 2), ("text", .str "t")]])]

/-- Candidate changing `block_0002` into a paragraph. -/
def exCandParagraph : JVal :=
  .obj [("metadata", .obj []), ("blocks", .arr [.obj [("id", .str "block_0002"),
    ("type", .str "paragraph"), ("text", .str "t")]])]

/-- Original with a 2 × 3 table at `block_0005`. -/
def exOrigTable : JVal :=
  .obj [("blocks", .arr [.obj [("id", .str "block_0005"), ("type", .str "table"),
    ("rows", .arr [.arr [exCell "c00", exCell "c01", exCell "c02"],
                   .arr [exCell "c10", exCell "c11", exCell "c12"]])]])]

/-- Candidate keeping id `block_0005` but supplying 3 rows. -/
def exCandRows3 : JVal :=
  .obj [("metadata", .obj []), ("blocks", .arr [.obj [("id", .str "block_0005"),
    ("type", .str "table"),
    ("rows", .arr [.arr [exCell "c00"], .arr [exCell "c10"], .arr [exCell "c20"]])]])]

/-- Candidate with a fresh table id `block_0009` and different geometry. -/
def exCandNewTable : JVal :=
  .obj [("metadata", .obj []), ("blocks", .arr [.obj [("id", .str "block_0009"),
    ("type", .str "table"),
    ("rows", .arr [.arr [exCell "n0"], .arr [exCell "n1"], .arr [exCell "n2"]])]])]

/-- Candidate keeping 2 rows but dropping one cell of row 1. -/
def exCandCells2 : JVal :=
  .obj [("metadata", .obj []), ("blocks", .arr [.obj [("id", .str "block_0005"),
    ("type", .str "table"),
    ("rows", .arr [.arr [exCell "c00", exCell "c01", exCell "c02"],
                   .arr [exCell "c10", exCell "c11"]])]])]

/-- A Stage-1-valid candidate. -/
def exGoodCand : JVal := .obj [("metadata", .obj []), ("blocks", .arr [])]

/-- An original whose `blocks` contains `null`: building the original map
dereferences `null.id`. -/
def exBadOrig : JVal := .obj [("blocks", .arr [JVal.null])]

/-- Fixture blocks for the title pass. -/
def exListItemBlock : Block :=
  { id := "block_0000", type := "list_item", text := some "i", level := some 1 }

def exParagraphBlock : Block :=
  { id := "block_0001", type := "paragraph", text := some "p" }

def exHeadingBlock : Block :=
  { id := "block_0002", type := "heading", text := some "h", level := some 1 }

/-- Stated from the claim's words (to be compared with `tableGeometry`): a
differing row count yields exactly the one row-count violation; with equal
row counts, each row index whose cell count differs yields one cell-count
violation. -/
def geometrySpec (p : String) (bR oR : List (List JVal)) : List String :=
  if bR.length ≠ oR.length then
    [p ++ ": número de linhas alterado de " ++ Nat.repr oR.length ++ " para " ++
      Nat.repr bR.length ++ "."]
  else
    (bR.zip oR).enum.filterMap (fun x =>
      if x.2.1.length ≠ x.2.2.length then
        some (p ++ ", linha " ++ Nat.repr x.1 ++ ": número de células alterado de " ++
          Nat.repr x.2.2.length ++ " para " ++ Nat.repr x.2.1.length ++ ".")
      else none)

/-- The elements the validator iterates when building the original map
(`original && Array.isArray(original.blocks)`). -/
def origElems (original : JVal) : List JVal :=
  if jsTruthy original then
    match jgetTotal original "blocks" with
    | .arr l => l
    | _ => []
  else []

/-- The original inputs on which the validator cannot throw: every original
block supports property access, and any original block typed `table` has
non-nullish `rows` (`origBlock.rows.length` is dereferenced for those). -/
def originalSafe (original : JVal) : Prop :=
  ∀ e ∈ origElems original, ¬ jsNullish e = true ∧
    (jvalKeyEq (jgetTotal e "type") (.str "table") = true →
      ¬ jsNullish (jgetTotal e "rows") = true)

/-! ### Injectivity of the `block_%04d` id format -/

/-- One step of reading a decimal numeral. -/
def digitStep (a : Nat) (c : Char) : Nat := a * 10 + (c.toNat - '0'.toNat)

/-- Value of a decimal numeral string (a left inverse of formatting). -/
def strDigitsVal (s : String) : Nat := s.toList.foldl digitStep 0

theorem toDigitsCore_append (f : Nat) :
    ∀ (n : Nat) (acc : List Char),
      Nat.toDigitsCore 10 f n acc = Nat.toDigitsCore 10 f n [] ++ acc := by
  induction f with
  | zero => intro n acc; simp [Nat.toDigitsCore]
  | succ f ih =>
    intro n acc
    simp only [Nat.toDigitsCore]
    by_cases h : n / 10 = 0
    · simp [h]
    · simp only [h, if_false]
      rw [ih (n / 10) (Nat.digitChar (n % 10) :: acc),
        ih (n / 10) [Nat.digitChar (n % 10)]]
      simp

theorem digitChar_sub (d : Nat) (h : d < 10) :
    (Nat.digitChar d).toNat - '0'.toNat = d := by
  interval_cases d <;> rfl

theorem foldl_toDigitsCore (n : Nat) :
    ∀ (f : Nat), n < f → ∀ (i : Nat),
      List.foldl digitStep i (Nat.toDigitsCore 10 f n []) =
        i * 10 ^ (Nat.toDigitsCore 10 f n []).length + n := by
  induction n using Nat.strong_induction_on with
  | _ n ih =>
    intro f hf i
    match f, hf with
    | f + 1, hf =>
      simp only [Nat.toDigitsCore]
      by_cases h : n / 10 = 0
      · have hn : n < 10 := by omega
        have hmod : n % 10 = n := Nat.mod_eq_of_lt hn
        simp only [h, if_true, List.foldl, List.length_cons, List.length_nil]
        rw [hmod, digitStep, digitChar_sub n hn]
        ring
      · have hge : 10 ≤ n := by omega
        have hlt : n / 10 < n := by omega
        have hfu : n / 10 < f := by omega
        simp only [h, if_false]
        rw [toDigitsCore_append f (n / 10) [Nat.digitChar (n % 10)],
          List.foldl_append, ih (n / 10) hlt f hfu i]
        have hm : n % 10 < 10 := Nat.mod_lt _ (by omega)
        simp only [List.foldl, digitStep, digitChar_sub _ hm, List.length_append,
          List.length_cons, List.length_nil]
        have : (i * 10 ^ (Nat.toDigitsCore 10 f (n / 10) []).length + n / 10) * 10 +
            n % 10 = i * 10 ^ ((Nat.toDigitsCore 10 f (n / 10) []).length + 1) +
              (10 * (n / 10) + n % 10) := by ring
        rw [this, Nat.div_add_mod]

theorem strDigitsVal_repr (n : Nat) : strDigitsVal (Nat.repr n) = n := by
  have h := foldl_toDigitsCore n (n + 1) (Nat.lt_succ_self n) 0
  simpa [strDigitsVal, Nat.repr, Nat.toDigits, List.asString] using h

theorem foldl_digitStep_zeros (k : Nat) :
    List.foldl digitStep 0 (List.replicate k '0') = 0 := by
  induction k with
  | zero => rfl
  | succ k ih => simpa [List.replicate, digitStep] using ih

theorem strDigitsVal_padStart4_repr (n : Nat) :
    strDigitsVal (padStart4 (Nat.repr n)) = n := by
  unfold padStart4
  by_cases h : (Nat.repr n).length ≥ 4
  · simp [h, strDigitsVal_repr]
  · simp only [h, if_false]
    have hdata : (String.mk (List.replicate (4 - (Nat.repr n).length) '0') ++
        Nat.repr n).toList =
        List.replicate (4 - (Nat.repr n).length) '0' ++ (Nat.repr n).toList := rfl
    rw [strDigitsVal, hdata, List.foldl_append, foldl_digitStep_zeros]
    exact strDigitsVal_repr n

theorem fmtBlockId_injective {m n : Nat} (h : fmtBlockId m = fmtBlockId n) :
    m = n := by
  unfold fmtBlockId at h
  have hd : ("block_".data ++ (padStart4 (Nat.repr m)).data) =
      ("block_".data ++ (padStart4 (Nat.repr n)).data) := congrArg String.data h
  have hp : padStart4 (Nat.repr m) = padStart4 (Nat.repr n) := by
    apply String.ext
    exact List.append_cancel_left hd
  rw [← strDigitsVal_padStart4_repr m, hp, strDigitsVal_padStart4_repr]

/-! ### C1: the two traversals agree -/

theorem buildNodes_eq_traverse (cs : List XNode) (idx : Nat) :
    buildOriginalBlockNodes cs idx =
      (traverseIndexed cs idx).map (fun p => (fmtBlockId p.1, p.2)) := by
  induction cs generalizing idx with
  | nil => rfl
  | cons c rest ih =>
    cases c with
    | txt s => simpa [buildOriginalBlockNodes, traverseIndexed] using ih idx
    | elem n a cc =>
      by_cases hp : n = "w:p"
      · simp [buildOriginalBlockNodes, traverseIndexed, hp, ih]
      · by_cases ht : n = "w:tbl"
        · simp [buildOriginalBlockNodes, traverseIndexed, hp, ht, ih]
        · simp [buildOriginalBlockNodes, traverseIndexed, hp, ht, ih]

theorem extractLoop_eq_traverse (hs : List (String × Int)) (cs : List XNode)
    (idx : Nat) :
    extractBlocksLoop hs cs idx =
      (traverseIndexed cs idx).filterMap (fun p => emitBlock hs p.1 p.2) := by
  induction cs generalizing idx with
  | nil => rfl
  | cons c rest ih =>
    cases c with
    | txt s => simpa [extractBlocksLoop, traverseIndexed] using ih idx
    | elem n a cc =>
      by_cases hp : n = "w:p"
      · subst hp
        have he : emitBlock hs idx (XNode.elem "w:p" a cc) =
            extractParagraphBlock hs (XNode.elem "w:p" a cc) idx := by
          simp [emitBlock]
        simp only [extractBlocksLoop, traverseIndexed, if_true, true_or,
          List.filterMap_cons, he]
        cases hE : extractParagraphBlock hs (.elem "w:p" a cc) idx with
        | none => simp only [hE, ih]
        | some b => simp only [hE, ih]
      · by_cases ht : n = "w:tbl"
        · subst ht
          have he : emitBlock hs idx (XNode.elem "w:tbl" a cc) =
              some (extractTable (XNode.elem "w:tbl" a cc) idx) := by
            simp [emitBlock, hp]
          simp only [extractBlocksLoop, traverseIndexed, hp, if_false, if_true,
            or_true, List.filterMap_cons, he, ih]
        · simp [extractBlocksLoop, traverseIndexed, hp, ht, ih]

theorem traverse_indices (cs : List XNode) (idx : Nat) :
    (traverseIndexed cs idx).map Prod.fst =
      List.range' idx (cs.countP isBlockNode) := by
  induction cs generalizing idx with
  | nil => rfl
  | cons c rest ih =>
    cases c with
    | txt s => simpa [traverseIndexed, isBlockNode, List.countP_cons] using ih idx
    | elem n a cc =>
      by_cases hp : n = "w:p"
      · simp [traverseIndexed, isBlockNode, List.countP_cons, hp, List.range'_succ, ih]
      · by_cases ht : n = "w:tbl"
        · simp [traverseIndexed, isBlockNode, List.countP_cons, hp, ht,
            List.range'_succ, ih]
        · simp [traverseIndexed, isBlockNode, List.countP_cons, hp, ht, ih]

theorem emitBlock_id (hs : List (String × Int)) (i : Nat) (node : XNode)
    (b : Block) (h : emitBlock hs i node = some b) : b.id = fmtBlockId i := by
  cases node with
  | txt s => simp [emitBlock] at h
  | elem n a cc =>
    by_cases hp : n = "w:p"
    · subst hp
      simp only [emitBlock, if_true] at h
      unfold extractParagraphBlock at h
      by_cases h1 : isImageOnlyParagraph (XNode.elem "w:p" a cc)
      · rw [if_pos h1] at h
        exact absurd h (by simp)
      · rw [if_neg h1] at h
        by_cases h2 : jsTrim (getPlainText (XNode.elem "w:p" a cc)) = ""
        · rw [if_pos h2] at h
          exact absurd h (by simp)
        · rw [if_neg h2] at h
          injection h with h3
          rw [← h3]
    · by_cases ht : n = "w:tbl"
      · subst ht
        simp only [emitBlock, hp, if_false, if_true, Option.some_inj] at h
        rw [← h]
        rfl
      · simp [emitBlock, hp, ht] at h

theorem lookup_of_mem_nodupKeys (m : List (String × XNode)) (k : String)
    (v : XNode) (hnd : (m.map Prod.fst).Nodup) (hmem : (k, v) ∈ m) :
    lookupNode m k = some v := by
  induction m with
  | nil => simp at hmem
  | cons p rest ih =>
    simp only [List.map_cons, List.nodup_cons] at hnd
    rcases List.mem_cons.mp hmem with h | h
    · rw [← h]
      unfold lookupNode
      rw [List.find?_cons_of_pos _ (by simp)]
      rfl
    · have hne : ¬ (p.1 == k) = true := by
        simp only [beq_iff_eq]
        intro he
        exact hnd.1 (he ▸ List.mem_map.mpr ⟨(k, v), h, rfl⟩)
      unfold lookupNode
      have hstep : List.find? (fun q => q.1 == k) (p :: rest) =
          List.find? (fun q => q.1 == k) rest :=
        List.find?_cons_of_neg rest hne
      rw [hstep]
      exact ih hnd.2 h

theorem buildNodes_keys_nodup (cs : List XNode) :
    ((buildOriginalBlockNodes cs 0).map Prod.fst).Nodup := by
  rw [buildNodes_eq_traverse, List.map_map]
  have h1 : (Prod.fst ∘ fun p : Nat × XNode => (fmtBlockId p.1, p.2)) =
      fmtBlockId ∘ Prod.fst := rfl
  rw [h1, ← List.map_map, traverse_indices]
  have hinj : Function.Injective fmtBlockId := fun a b h => fmtBlockId_injective h
  exact (List.nodup_range' _ _).map hinj

theorem assignTitle_map_id (bs : List Block) :
    (assignTitle bs).map (fun b => b.id) = bs.map (fun b => b.id) := by
  induction bs with
  | nil => rfl
  | cons b rest ih =>
    simp only [assignTitle]
    by_cases h1 : b.type = "heading" ∨ b.type = "table"
    · rw [if_pos h1]
    · rw [if_neg h1]
      by_cases h2 : b.type = "paragraph"
      · rw [if_pos h2]
        rfl
      · rw [if_neg h2]
        simp [ih]

/-- **C1.** The Extractor's traversal and the Reconstructor's re-traversal of
the same body agree: both factor through the same indexed traversal of the
`w:p`/`w:tbl` direct children, each such child consumes exactly one
monotonically increasing index (the indices are `0, 1, 2, …` in document
order, including skipped paragraphs), every emitted block's id is
`block_%04d` of its index, and the Reconstructor's id → original-node map
binds that id to exactly the node the block was extracted from. -/
theorem extractor_reconstructor_index_agreement (hs : List (String × Int))
    (children : List XNode) (fileName extractedAt : String) :
    buildOriginalBlockNodes children 0 =
      (traverseIndexed children 0).map (fun p => (fmtBlockId p.1, p.2)) ∧
    extractBlocksLoop hs children 0 =
      (traverseIndexed children 0).filterMap (fun p => emitBlock hs p.1 p.2) ∧
    (traverseIndexed children 0).map Prod.fst =
      List.range' 0 (children.countP isBlockNode) ∧
    (∀ b ∈ extractBlocksLoop hs children 0, ∃ i node,
      (i, node) ∈ traverseIndexed children 0 ∧ emitBlock hs i node = some b ∧
      b.id = fmtBlockId i ∧
      lookupNode (buildOriginalBlockNodes children 0) b.id = some node) ∧
    ∀ b ∈ (extractDocument children hs fileName extractedAt).blocks,
      ∃ node, lookupNode (buildOriginalBlockNodes children 0) b.id = some node := by
  have h4 : ∀ b ∈ extractBlocksLoop hs children 0, ∃ i node,
      (i, node) ∈ traverseIndexed children 0 ∧ emitBlock hs i node = some b ∧
      b.id = fmtBlockId i ∧
      lookupNode (buildOriginalBlockNodes children 0) b.id = some node := by
    intro b hb
    rw [extractLoop_eq_traverse] at hb
    rcases List.mem_filterMap.mp hb with ⟨p, hpmem, hpemit⟩
    refine ⟨p.1, p.2, hpmem, hpemit, emitBlock_id hs p.1 p.2 b hpemit, ?_⟩
    rw [emitBlock_id hs p.1 p.2 b hpemit]
    apply lookup_of_mem_nodupKeys _ _ _ (buildNodes_keys_nodup children)
    rw [buildNodes_eq_traverse]
    exact List.mem_map.mpr ⟨p, hpmem, rfl⟩
  refine ⟨buildNodes_eq_traverse children 0, extractLoop_eq_traverse hs children 0,
    traverse_indices children 0, h4, ?_⟩
  intro b hb
  have hdocb : (extractDocument children hs fileName extractedAt).blocks =
      assignTitle (extractBlocksLoop hs children 0) := rfl
  rw [hdocb] at hb
  have hid : b.id ∈ (assignTitle (extractBlocksLoop hs children 0)).map
      (fun x => x.id) := List.mem_map.mpr ⟨b, hb, rfl⟩
  rw [assignTitle_map_id] at hid
  rcases List.mem_map.mp hid with ⟨b', hb', hbid⟩
  rcases h4 b' hb' with ⟨i, node, _, _, _, hlook⟩
  exact ⟨node, hbid ▸ hlook⟩

/-- Witness for C1 on a one-paragraph body. -/
theorem extractor_reconstructor_index_agreement_witness :
    ({ id := "block_0000", type := "paragraph", text := some "Hello" } : Block) ∈
      extractBlocksLoop [] exHelloChildren 0 ∧
    ∃ i node, (i, node) ∈ traverseIndexed exHelloChildren 0 ∧
      emitBlock [] i node =
        some { id := "block_0000", type := "paragraph", text := some "Hello" } ∧
      ({ id := "block_0000", type := "paragraph", text := some "Hello" } : Block).id =
        fmtBlockId i ∧
      lookupNode (buildOriginalBlockNodes exHelloChildren 0)
        ({ id := "block_0000", type := "paragraph", text := some "Hello" } : Block).id =
        some node :=
  ⟨by decide,
   (extractor_reconstructor_index_agreement [] exHelloChildren "f.docx" "t0").2.2.2.1
     { id := "block_0000", type := "paragraph", text := some "Hello" } (by decide)⟩

/-- **C8.** The title pass: blocks before the decision point that are neither
paragraphs, headings nor tables (list items) are kept and skipped; if the
first decisive block is a heading or table nothing is reclassified; if it is
a paragraph exactly that block has its `type` changed to `title` and nothing
else is modified; a sequence without any decisive block is unchanged. -/
theorem title_pass :
    (∀ (pre : List Block) (b : Block) (post : List Block),
      (∀ x ∈ pre, x.type ≠ "paragraph" ∧ x.type ≠ "heading" ∧ x.type ≠ "table") →
      ((b.type = "heading" ∨ b.type = "table") →
        assignTitle (pre ++ b :: post) = pre ++ b :: post) ∧
      (b.type = "paragraph" →
        assignTitle (pre ++ b :: post) = pre ++ { b with type := "title" } :: post)) ∧
    ∀ bs : List Block,
      (∀ x ∈ bs, x.type ≠ "paragraph" ∧ x.type ≠ "heading" ∧ x.type ≠ "table") →
      assignTitle bs = bs := by
  constructor
  · intro pre
    induction pre with
    | nil =>
      intro b post _
      constructor
      · intro hb
        simp only [List.nil_append, assignTitle, if_pos hb]
      · intro hb
        have h1 : ¬ (b.type = "heading" ∨ b.type = "table") := by
          rw [hb]
          simp
        simp only [List.nil_append, assignTitle, if_neg h1, if_pos hb]
    | cons x pre' ih =>
      intro b post hpre
      have hx := hpre x (List.mem_cons_self _ _)
      have hx1 : ¬ (x.type = "heading" ∨ x.type = "table") := by
        rcases hx with ⟨_, h2, h3⟩
        simp [h2, h3]
      have hrest : ∀ y ∈ pre', y.type ≠ "paragraph" ∧ y.type ≠ "heading" ∧
          y.type ≠ "table" := fun y hy => hpre y (List.mem_cons_of_mem _ hy)
      constructor
      · intro hb
        simp only [List.cons_append, assignTitle, List.append_eq, if_neg hx1,
          if_neg hx.1]
        rw [(ih b post hrest).1 hb]
      · intro hb
        simp only [List.cons_append, assignTitle, List.append_eq, if_neg hx1,
          if_neg hx.1]
        rw [(ih b post hrest).2 hb]
  · intro bs h
    induction bs with
    | nil => rfl
    | cons x rest ih =>
      have hx := h x (List.mem_cons_self _ _)
      have hx1 : ¬ (x.type = "heading" ∨ x.type = "table") := by
        rcases hx with ⟨_, h2, h3⟩
        simp [h2, h3]
      simp only [assignTitle, if_neg hx1, if_neg hx.1]
      rw [ih (fun y hy => h y (List.mem_cons_of_mem _ hy))]

/-- Witness for C8: a list item precedes the first paragraph, which is
retitled; a heading first blocks the retitling. -/
theorem title_pass_witness :
    assignTitle [exListItemBlock, exParagraphBlock, exHeadingBlock] =
      [exListItemBlock, { exParagraphBlock with type := "title" }, exHeadingBlock] ∧
    assignTitle [exHeadingBlock, exParagraphBlock] =
      [exHeadingBlock, exParagraphBlock] :=
  ⟨((title_pass.1 [exListItemBlock] exParagraphBlock [exHeadingBlock]
      (by decide)).2 (by decide)),
   ((title_pass.1 [] exHeadingBlock [exParagraphBlock] (by decide)).1
      (by decide))⟩

/-- **C10.** Tab and line-break run content is pushed as an unformatted
segment regardless of the enclosing run's flags, so emphasis markers never
span a tab or newline: a bold run `a\tb` renders as `**a**\t**b**`. -/
theorem tab_break_unformatted :
    (∀ (bold italic : Bool) (a : List (String × String)) (cs rest : List XNode),
      runChildSegs bold italic (.elem "w:tab" a cs :: rest) =
        ⟨"\t", false, false⟩ :: runChildSegs bold italic rest) ∧
    (∀ (bold italic : Bool) (a : List (String × String)) (cs rest : List XNode),
      runChildSegs bold italic (.elem "w:br" a cs :: rest) =
        ⟨"\n", false, false⟩ :: runChildSegs bold italic rest) ∧
    getFormattedText exTabRun = "**a**\t**b**" := by
  refine ⟨?_, ?_, by rfl⟩
  · intro bold italic a cs rest
    simp [runChildSegs]
  · intro bold italic a cs rest
    simp [runChildSegs]

/-- **C3, counterexample.** Three adjacent runs `a`/`b`/`c` flagged
bold/italic/bold+italic render as `**a***b****c***`, not `**a** *b* ***c***`;
and parsing `**a** *b* ***c***` does not yield exactly three segments. -/
theorem markdown_roundtrip_counterexample :
    getFormattedText exThreeRuns = "**a***b****c***" ∧
    "**a***b****c***" ≠ "**a** *b* ***c***" ∧
    parseMarkdown "**a** *b* ***c***" ≠
      [⟨"a", true, false⟩, ⟨"b", false, true⟩, ⟨"c", true, true⟩] :=
  ⟨by rfl, by decide, by decide⟩

/-- **C3, amended.** With plain single-space runs between the three formatted
runs, extraction produces exactly `**a** *b* ***c***`; parsing that string
yields the five segments `a`/bold, space/plain, `b`/italic, space/plain,
`c`/bold+italic; and the parser tries `***…***` before `**…**` before `*…*`. -/
theorem markdown_roundtrip_amended :
    getFormattedText exFiveRuns = "**a** *b* ***c***" ∧
    parseMarkdown "**a** *b* ***c***" =
      [⟨"a", true, false⟩, ⟨" ", false, false⟩, ⟨"b", false, true⟩,
       ⟨" ", false, false⟩, ⟨"c", true, true⟩] ∧
    parseMarkdown "***c***" = [⟨"c", true, true⟩] ∧
    parseMarkdown "**c**" = [⟨"c", true, false⟩] ∧
    parseMarkdown "*c*" = [⟨"c", false, true⟩] :=
  ⟨by rfl, by rfl, by rfl, by rfl, by rfl⟩

/-- **C5.** Heading stability: on original `{block_0002, heading, level 1}`,
a candidate heading of level 2 yields exactly the level-change violation, and
a candidate paragraph yields exactly the type-change violation. -/
theorem heading_stability_enforcement :
    validateModifiedJson exCandLevel2 exOrigHeading =
      .ok ⟨false, ["Bloco 0 (block_0002): nível do heading alterado de 1 para 2."]⟩ ∧
    validateModifiedJson exCandParagraph exOrigHeading =
      .ok ⟨false, ["Bloco 0 (block_0002): tipo alterado de \"heading\" para \"paragraph\" — blocos existentes devem manter o tipo."]⟩ :=
  ⟨rfl, rfl⟩

/-- **C9.** The Validator requires `candidate.metadata` to be a truthy
`object`; the violation accumulates (per-block checks still run), but a
non-array `blocks` returns its single violation alone, discarding the
metadata violation. -/
theorem metadata_requirement :
    validateModifiedJson (.obj [("blocks", .arr [])]) .null =
      .ok ⟨false, ["Campo \"metadata\" ausente ou inválido."]⟩ ∧
    validateModifiedJson (.obj [("blocks", .arr [JVal.null])]) .null =
      .ok ⟨false, ["Campo \"metadata\" ausente ou inválido.",
        "Bloco 0: bloco ausente ou inválido."]⟩ ∧
    validateModifiedJson (.obj [("metadata", .null), ("blocks", .arr [])]) .null =
      .ok ⟨false, ["Campo \"metadata\" ausente ou inválido."]⟩ ∧
    validateModifiedJson (.obj [("metadata", .num 5), ("blocks", .arr [])]) .null =
      .ok ⟨false, ["Campo \"metadata\" ausente ou inválido."]⟩ ∧
    validateModifiedJson (.obj [("metadata", .null), ("blocks", .str "x")]) .null =
      .ok ⟨false, ["Campo \"blocks\" deve ser um array."]⟩ :=
  ⟨rfl, rfl, rfl, rfl, rfl⟩

/-- **C6, counterexample.** The Validator throws on some input pairs: with a
Stage-1-valid candidate, an original whose `blocks` array contains `null`
makes `originalBlockMap.set(block.id, …)` dereference `null.id`. -/
theorem validator_totality_counterexample :
    validateModifiedJson exGoodCand exBadOrig = .error () := rfl

/-- **C2, counterexample.** `extractDocx` can emit a Document outside the §3
shape: an outline level of `-1` yields a heading of level 0, and validating
that Document against itself reports a violation instead of `{valid: true}`. -/
theorem selfValidation_extract_counterexample :
    exBadOutlineDoc.blocks =
      [{ id := "block_0000", type := "heading", text := some "x", level := some 0 }] ∧
    validateModifiedJson (docToJVal exBadOutlineDoc) (docToJVal exBadOutlineDoc) =
      .ok ⟨false, ["Bloco 0 (block_0000): heading deve ter \"level\" numérico >= 1."]⟩ :=
  ⟨rfl, rfl⟩

/-- **C7.** `classifyParagraph` tests, in order with first match winning:
(1) heading style id resolving in the style map; (2) explicit outline level
(level = outline + 1, built into `outlineHeadingLevel`); (3) the
numbered-heading pattern on the trimmed plain text; (4) `w:numPr` list
membership; (5) plain paragraph.  The final conjuncts pin the pattern's
semantics: dotted numeral + separator ↦ component count, bare integer +
uppercase letter ↦ 1. -/
theorem classify_precedence (pNode : XNode) (hs : List (String × Int)) :
    (∀ l, styleHeadingLevel pNode hs = some l →
      classifyParagraph pNode hs =
        ⟨"heading", some l, jsTrim (getFormattedText pNode)⟩) ∧
    (styleHeadingLevel pNode hs = none → ∀ l, outlineHeadingLevel pNode = some l →
      classifyParagraph pNode hs =
        ⟨"heading", some l, jsTrim (getFormattedText pNode)⟩) ∧
    (styleHeadingLevel pNode hs = none → outlineHeadingLevel pNode = none →
      ∀ k, detectHeadingByPattern (jsTrim (getPlainText pNode)) = some k →
      classifyParagraph pNode hs =
        ⟨"heading", some (Int.ofNat k), jsTrim (getFormattedText pNode)⟩) ∧
    (styleHeadingLevel pNode hs = none → outlineHeadingLevel pNode = none →
      detectHeadingByPattern (jsTrim (getPlainText pNode)) = none →
      isListItem pNode = true →
      classifyParagraph pNode hs =
        ⟨"list_item", some (getListLevel pNode), jsTrim (getFormattedText pNode)⟩) ∧
    (styleHeadingLevel pNode hs = none → outlineHeadingLevel pNode = none →
      detectHeadingByPattern (jsTrim (getPlainText pNode)) = none →
      isListItem pNode = false →
      classifyParagraph pNode hs =
        ⟨"paragraph", none, jsTrim (getFormattedText pNode)⟩) ∧
    detectHeadingByPattern "1. OBJETIVO" = some 1 ∧
    detectHeadingByPattern "2.1 - Cabeçalho" = some 2 ∧
    detectHeadingByPattern "2.1.1: Detalhe" = some 3 ∧
    detectHeadingByPattern "3 Título" = some 1 ∧
    detectHeadingByPattern "Hello" = none := by
  refine ⟨?_, ?_, ?_, ?_, ?_, by rfl, by rfl, by rfl, by rfl, by rfl⟩
  · intro l h
    simp only [classifyParagraph, h]
  · intro h1 l h2
    simp only [classifyParagraph, h1, h2]
  · intro h1 h2 k h3
    simp only [classifyParagraph, h1, h2, h3]
  · intro h1 h2 h3 h4
    simp [classifyParagraph, h1, h2, h3, h4]
  · intro h1 h2 h3 h4
    simp [classifyParagraph, h1, h2, h3, h4]

theorem jsToString_ofNat (n : Nat) : jsToString (.num (Int.ofNat n)) = Nat.repr n :=
  rfl

theorem geoRowsLoop_zip (p : String) :
    ∀ (bR oR : List (List JVal)) (oPre : List JVal), bR.length = oR.length →
    geoRowsLoop p (.arr (oPre ++ oR.map .arr)) (bR.map .arr) oPre.length =
      ((bR.zip oR).enumFrom oPre.length).filterMap (fun x =>
        if x.2.1.length ≠ x.2.2.length then
          some (p ++ ", linha " ++ Nat.repr x.1 ++
            ": número de células alterado de " ++ Nat.repr x.2.2.length ++
            " para " ++ Nat.repr x.2.1.length ++ ".")
        else none) := by
  intro bR
  induction bR with
  | nil =>
    intro oR oPre hlen
    cases oR with
    | nil => rfl
    | cons _ _ => simp at hlen
  | cons b bs ih =>
    intro oR oPre hlen
    cases oR with
    | nil => simp at hlen
    | cons o os =>
      have hlen' : bs.length = os.length := by
        simpa using hlen
      have hidx : jsIndex (.arr (oPre ++ (JVal.arr o :: os.map .arr)))
          oPre.length = .arr o := by
        simp only [jsIndex]
        rw [List.get?_append_right (le_refl _)]
        simp
      have hrec := ih os (oPre ++ [JVal.arr o]) hlen'
      have hsplit : (oPre ++ [JVal.arr o]) ++ os.map .arr =
          oPre ++ (JVal.arr o :: os.map .arr) := by
        simp
      have hplen : (oPre ++ [JVal.arr o]).length = oPre.length + 1 := by
        simp
      rw [hsplit, hplen] at hrec
      simp only [List.map_cons, geoRowsLoop, hidx, List.zip_cons_cons,
        List.enumFrom, List.filterMap_cons, hrec]
      by_cases hbo : b.length = o.length
      · have hkeq : jvalKeyEq (jgetTotal (.arr b) "length")
            (jgetTotal (.arr o) "length") = true := by
          simp [jgetTotal, jvalKeyEq, hbo]
        rw [if_neg (fun hcond => hcond.2.2 hkeq)]
        simp [hbo, List.zip]
      · have hkeq : ¬ jvalKeyEq (jgetTotal (.arr b) "length")
            (jgetTotal (.arr o) "length") = true := by
          simp [jgetTotal, jvalKeyEq, hbo]
        rw [if_pos ⟨by simp [jsTruthy], by simp [jsTruthy], hkeq⟩]
        have hmsg : jsToString (jgetTotal (.arr o) "length") = Nat.repr o.length :=
          rfl
        have hmsg2 : jsToString (jgetTotal (.arr b) "length") = Nat.repr b.length :=
          rfl
        rw [hmsg, hmsg2]
        simp [hbo, List.zip]

theorem jvalKeyEq_num_iff (a b : Int) :
    jvalKeyEq (.num a) (.num b) = true ↔ a = b := by
  simp [jvalKeyEq]

theorem tableGeometry_rowcount (p : String) (bRows oRows : List JVal)
    (h : bRows.length ≠ oRows.length) :
    tableGeometry p bRows (.arr oRows) =
      .ok [p ++ ": número de linhas alterado de " ++ Nat.repr oRows.length ++
        " para " ++ Nat.repr bRows.length ++ "."] := by
  unfold tableGeometry
  have h1 : jgetOrThrow (JVal.arr oRows) "length" = .ok (.num (Int.ofNat oRows.length)) := by
    simp [jgetOrThrow, jsNullish, jgetTotal]
  have hcond : ¬ jvalKeyEq (.num (Int.ofNat bRows.length))
      (.num (Int.ofNat oRows.length)) = true := by
    rw [jvalKeyEq_num_iff]
    intro he
    exact h (Int.ofNat_inj.mp he)
  simp only [h1]
  rw [if_pos hcond, jsToString_ofNat]

theorem tableGeometry_eq_spec (p : String) (bR oR : List (List JVal)) :
    tableGeometry p (bR.map .arr) (.arr (oR.map .arr)) =
      .ok (geometrySpec p bR oR) := by
  by_cases hlen : bR.length = oR.length
  · unfold tableGeometry
    have h1 : jgetOrThrow (JVal.arr (oR.map .arr)) "length" =
        .ok (.num (Int.ofNat oR.length)) := by
      simp [jgetOrThrow, jsNullish, jgetTotal]
    have hk : jvalKeyEq (.num (Int.ofNat (bR.map JVal.arr).length))
        (.num (Int.ofNat oR.length)) = true := by
      rw [jvalKeyEq_num_iff]
      simp [hlen]
    simp only [h1]
    rw [if_neg (fun hc => hc hk)]
    have hz := geoRowsLoop_zip p bR oR [] hlen
    simp only [List.nil_append, List.length_nil] at hz
    rw [hz]
    unfold geometrySpec
    rw [if_neg (fun hne => hne hlen)]
    rfl
  · have hne : (bR.map JVal.arr).length ≠ (oR.map JVal.arr).length := by
      simpa using hlen
    rw [tableGeometry_rowcount p _ _ hne]
    unfold geometrySpec
    rw [if_pos hlen]
    simp

/-- **C4.** Table geometry enforcement: a differing row count yields exactly
the one row-count violation (no per-row cell violations); with equal row
counts, each row index whose cell count differs yields one cell-count
violation (`tableGeometry` coincides with the claim-side `geometrySpec`); a
candidate table with a fresh id triggers no geometry violation end to end. -/
theorem table_geometry_enforcement :
    (∀ (p : String) (bRows oRows : List JVal), bRows.length ≠ oRows.length →
      tableGeometry p bRows (.arr oRows) =
        .ok [p ++ ": número de linhas alterado de " ++ Nat.repr oRows.length ++
          " para " ++ Nat.repr bRows.length ++ "."]) ∧
    (∀ (p : String) (bR oR : List (List JVal)),
      tableGeometry p (bR.map .arr) (.arr (oR.map .arr)) =
        .ok (geometrySpec p bR oR)) ∧
    validateModifiedJson exCandRows3 exOrigTable =
      .ok ⟨false, ["Bloco 0 (block_0005): número de linhas alterado de 2 para 3."]⟩ ∧
    validateModifiedJson exCandCells2 exOrigTable =
      .ok ⟨false,
        ["Bloco 0 (block_0005), linha 1: número de células alterado de 3 para 2."]⟩ ∧
    validateModifiedJson exCandNewTable exOrigTable = .ok ⟨true, []⟩ :=
  ⟨tableGeometry_rowcount, tableGeometry_eq_spec, rfl, rfl, rfl⟩

/-- Witness for C4: the general row-count part applied to the 2 × 3 versus
3-row example. -/
theorem table_geometry_enforcement_witness :
    ([JVal.arr [exCell "c00"], .arr [exCell "c10"], .arr [exCell "c20"]].length ≠
      [JVal.arr [exCell "c00", exCell "c01", exCell "c02"],
       .arr [exCell "c10", exCell "c11", exCell "c12"]].length) ∧
    tableGeometry "Bloco 0 (block_0005)"
      [JVal.arr [exCell "c00"], .arr [exCell "c10"], .arr [exCell "c20"]]
      (.arr [JVal.arr [exCell "c00", exCell "c01", exCell "c02"],
             .arr [exCell "c10", exCell "c11", exCell "c12"]]) =
      .ok ["Bloco 0 (block_0005): número de linhas alterado de 2 para 3."] :=
  ⟨by decide,
   table_geometry_enforcement.1 "Bloco 0 (block_0005)"
     [JVal.arr [exCell "c00"], .arr [exCell "c10"], .arr [exCell "c20"]]
     [JVal.arr [exCell "c00", exCell "c01", exCell "c02"],
      .arr [exCell "c10", exCell "c11", exCell "c12"]] (by decide)⟩

/-! ### Lemmas towards C2 (self-validation of well-formed documents) -/

theorem blockToJVal_isObj (b : Block) : ∃ fs, blockToJVal b = .obj fs :=
  ⟨_, rfl⟩

theorem blockToJVal_truthy (b : Block) : jsTruthy (blockToJVal b) = true := rfl

theorem blockToJVal_typeof (b : Block) : jsTypeof (blockToJVal b) = "object" := rfl

theorem blockToJVal_notNullish (b : Block) : jsNullish (blockToJVal b) = false := rfl

theorem blockToJVal_id (b : Block) :
    jgetTotal (blockToJVal b) "id" = .str b.id := by
  unfold blockToJVal
  simp only [jgetTotal, List.cons_append, List.nil_append, List.append_assoc]
  rw [List.find?_cons_of_pos _ (by rfl)]
  rfl

theorem blockToJVal_type (b : Block) :
    jgetTotal (blockToJVal b) "type" = .str b.type := by
  unfold blockToJVal
  simp only [jgetTotal, List.cons_append, List.nil_append, List.append_assoc]
  rw [List.find?_cons_of_neg _ (by intro hx; simp at hx), List.find?_cons_of_pos _ (by rfl)]
  rfl

theorem blockToJVal_text (b : Block) (t : String) (h : b.text = some t) :
    jgetTotal (blockToJVal b) "text" = .str t := by
  unfold blockToJVal
  rw [h]
  simp only [jgetTotal, List.cons_append, List.nil_append, List.append_assoc]
  rw [List.find?_cons_of_neg _ (by intro hx; simp at hx), List.find?_cons_of_neg _ (by intro hx; simp at hx),
    List.find?_cons_of_pos _ (by rfl)]
  rfl

theorem blockToJVal_level (b : Block) (t : String) (l : Int)
    (ht : b.text = some t) (hl : b.level = some l) :
    jgetTotal (blockToJVal b) "level" = .num l := by
  unfold blockToJVal
  rw [ht, hl]
  simp only [jgetTotal, List.cons_append, List.nil_append, List.append_assoc]
  rw [List.find?_cons_of_neg _ (by intro hx; simp at hx), List.find?_cons_of_neg _ (by intro hx; simp at hx),
    List.find?_cons_of_neg _ (by intro hx; simp at hx), List.find?_cons_of_pos _ (by rfl)]
  rfl

theorem blockToJVal_rows (b : Block) (rs : List (List JCell))
    (ht : b.text = none) (hl : b.level = none) (hr : b.rows = some rs) :
    jgetTotal (blockToJVal b) "rows" =
      .arr (rs.map (fun row => JVal.arr (row.map cellToJVal))) := by
  unfold blockToJVal
  rw [ht, hl, hr]
  simp only [jgetTotal, List.cons_append, List.nil_append, List.append_assoc]
  rw [List.find?_cons_of_neg _ (by intro hx; simp at hx), List.find?_cons_of_neg _ (by intro hx; simp at hx),
    List.find?_cons_of_pos _ (by rfl)]
  rfl

theorem jvalKeyEq_str_iff (a b : String) :
    jvalKeyEq (.str a) (.str b) = true ↔ a = b := by
  simp [jvalKeyEq]

theorem seenHas_cons (x v : JVal) (seen : List JVal) :
    seenHas (x :: seen) v = (jvalKeyEq x v || seenHas seen v) := by
  simp [seenHas]

theorem mapSet_fresh (m : List (JVal × JVal)) (k v : JVal)
    (h : ¬ m.any (fun p => jvalKeyEq p.1 k) = true) :
    mapSet m k v = m ++ [(k, v)] := by
  unfold mapSet
  rw [if_neg h]

theorem map_id_sublist (bs : List Block) :
    (bs.map (fun b => b.id)).Sublist ((bs.map blockIds).flatten) := by
  induction bs with
  | nil => simp
  | cons b rest ih =>
    have hhead : blockIds b = b.id :: (match b.rows with
        | some rs => (rs.map (fun row => row.map (·.id))).flatten
        | none => []) := rfl
    simp only [List.map_cons, List.flatten_cons, hhead, List.cons_append]
    exact (ih.trans (List.sublist_append_right _ _)).cons₂ b.id

theorem docIds_cons (b : Block) (rest : List Block) (meta : DocMetadata) :
    docIds ⟨meta, b :: rest⟩ = blockIds b ++ docIds ⟨meta, rest⟩ := by
  simp [docIds]

theorem buildMapLoop_append (bs : List Block) :
    ∀ (m : List (JVal × JVal)),
    (∀ b ∈ bs, ¬ m.any (fun p => jvalKeyEq p.1 (.str b.id)) = true) →
    (bs.map (fun b => b.id)).Nodup →
    buildMapLoop (bs.map blockToJVal) m =
      .ok (m ++ bs.map (fun b => (JVal.str b.id, blockToJVal b))) := by
  induction bs with
  | nil =>
    intro m _ _
    simp [buildMapLoop]
  | cons b rest ih =>
    intro m hfresh hnd
    simp only [List.map_cons, buildMapLoop]
    have hid : jgetOrThrow (blockToJVal b) "id" = .ok (.str b.id) := by
      unfold jgetOrThrow
      rw [blockToJVal_notNullish]
      simp [blockToJVal_id]
    simp only [hid]
    rw [mapSet_fresh _ _ _ (hfresh b (List.mem_cons_self _ _))]
    simp only [List.map_cons, List.nodup_cons] at hnd
    have hfresh2 : ∀ b' ∈ rest,
        ¬ ((m ++ [(JVal.str b.id, blockToJVal b)]).any
          fun p => jvalKeyEq p.1 (.str b'.id)) = true := by
      intro b' hb'
      simp only [List.any_append, List.any_cons, List.any_nil, Bool.or_false,
        Bool.or_eq_true, not_or]
      refine ⟨hfresh b' (List.mem_cons_of_mem _ hb'), ?_⟩
      rw [jvalKeyEq_str_iff]
      intro he
      exact hnd.1 (he ▸ List.mem_map.mpr ⟨b', hb', rfl⟩)
    have hrec := ih (m ++ [(JVal.str b.id, blockToJVal b)]) hfresh2 hnd.2
    rw [hrec]
    simp

theorem mapGet_pairs (bs : List Block) (b : Block)
    (hnd : (bs.map (fun x => x.id)).Nodup) (hb : b ∈ bs) :
    mapGet (bs.map (fun x => (JVal.str x.id, blockToJVal x))) (.str b.id) =
      blockToJVal b := by
  induction bs with
  | nil => simp at hb
  | cons x rest ih =>
    simp only [List.map_cons, List.nodup_cons] at hnd ⊢
    rcases List.mem_cons.mp hb with h | h
    · subst h
      unfold mapGet
      rw [List.find?_cons_of_pos _ (by simp [jvalKeyEq])]
      rfl
    · have hne : jvalKeyEq (.str x.id) (.str b.id) = false := by
        rw [← Bool.not_eq_true, jvalKeyEq_str_iff]
        intro he
        exact hnd.1 (he ▸ List.mem_map.mpr ⟨b, h, rfl⟩)
      unfold mapGet
      have hstep : List.find? (fun q => jvalKeyEq q.1 (.str b.id))
          ((JVal.str x.id, blockToJVal x) :: rest.map
            (fun y => (JVal.str y.id, blockToJVal y))) =
          List.find? (fun q => jvalKeyEq q.1 (.str b.id))
            (rest.map (fun y => (JVal.str y.id, blockToJVal y))) :=
        List.find?_cons_of_neg _ (by simp [hne])
      rw [hstep]
      exact ih hnd.2 h

theorem jsTruthy_str_of_ne (s : String) (h : s ≠ "") :
    jsTruthy (.str s) = true := by
  simp [jsTruthy, h]

theorem validateCellsLoop_wf (p : String) (r : Nat) (cells : List JCell) :
    ∀ (c : Nat) (seen : List JVal) (errs : List String),
    (∀ cl ∈ cells, cl.id ≠ "") →
    (∀ cl ∈ cells, ¬ seenHas seen (.str cl.id) = true) →
    (cells.map (fun cl => cl.id)).Nodup →
    validateCellsLoop p r (cells.map cellToJVal) c seen errs =
      ((cells.map (fun cl => JVal.str cl.id)).reverse ++ seen, errs) := by
  induction cells with
  | nil =>
    intro c seen errs _ _ _
    simp [validateCellsLoop]
  | cons cl rest ih =>
    intro c seen errs hne hfresh hnd
    simp only [List.map_cons, List.nodup_cons] at hnd
    have hmemid : cl.id ≠ "" := hne cl (List.mem_cons_self _ _)
    have hid : jgetTotal (cellToJVal cl) "id" = .str cl.id := rfl
    have htext : jgetTotal (cellToJVal cl) "text" = .str cl.text := rfl
    have hobj1 : jsTruthy (cellToJVal cl) = true := rfl
    have hobj2 : jsTypeof (cellToJVal cl) = "object" := rfl
    have c1 : jsTruthy (JVal.str cl.id) = true := jsTruthy_str_of_ne cl.id hmemid
    have c2 : seenHas seen (JVal.str cl.id) = false := by
      have h := hfresh cl (List.mem_cons_self _ _)
      cases hx : seenHas seen (JVal.str cl.id) with
      | false => rfl
      | true => exact absurd hx h
    have hfresh2 : ∀ x ∈ rest,
        ¬ seenHas (JVal.str cl.id :: seen) (.str x.id) = true := by
      intro x hx
      rw [seenHas_cons]
      simp only [Bool.or_eq_true, not_or]
      constructor
      · rw [jvalKeyEq_str_iff]
        intro he
        exact hnd.1 (he ▸ List.mem_map.mpr ⟨x, hx, rfl⟩)
      · exact hfresh x (List.mem_cons_of_mem _ hx)
    have hrec := ih (c + 1) (JVal.str cl.id :: seen) errs
      (fun x hx => hne x (List.mem_cons_of_mem _ hx)) hfresh2 hnd.2
    have ht1 : jsTypeof (JVal.str cl.id) = "string" := rfl
    have ht2 : jsTypeof (JVal.str cl.text) = "string" := rfl
    simp [validateCellsLoop, hobj1, hobj2, hid, htext, c1, c2, ht1, ht2, hrec]

theorem validateRowsLoop_wf (p : String) (rows : List (List JCell)) :
    ∀ (r : Nat) (seen : List JVal) (errs : List String),
    (∀ row ∈ rows, ∀ cl ∈ row, cl.id ≠ "") →
    (∀ row ∈ rows, ∀ cl ∈ row, ¬ seenHas seen (.str cl.id) = true) →
    ((rows.map (fun row => row.map (fun cl => cl.id))).flatten).Nodup →
    validateRowsLoop p (rows.map (fun row => JVal.arr (row.map cellToJVal))) r seen errs =
      (((rows.map (fun row => row.map (fun cl => JVal.str cl.id))).flatten).reverse ++ seen,
        errs) := by
  induction rows with
  | nil =>
    intro r seen errs _ _ _
    simp [validateRowsLoop]
  | cons row rest ih =>
    intro r seen errs hne hfresh hnd
    simp only [List.map_cons, List.flatten_cons, List.nodup_append] at hnd
    simp only [List.map_cons, validateRowsLoop]
    have hcells := validateCellsLoop_wf p r row 0 seen errs
      (hne row (List.mem_cons_self _ _)) (hfresh row (List.mem_cons_self _ _))
      hnd.1
    have hfresh2 : ∀ row' ∈ rest, ∀ cl ∈ row',
        ¬ seenHas ((row.map (fun cl => JVal.str cl.id)).reverse ++ seen)
          (.str cl.id) = true := by
      intro row' hrow' cl hcl hcon
      unfold seenHas at hcon
      rw [List.any_append, Bool.or_eq_true] at hcon
      rcases hcon with hcon | hcon
      · rw [List.any_eq_true] at hcon
        rcases hcon with ⟨x, hxmem, hkey⟩
        rw [List.mem_reverse, List.mem_map] at hxmem
        rcases hxmem with ⟨y, hy, rfl⟩
        rw [jvalKeyEq_str_iff] at hkey
        have hmem1 : cl.id ∈ row.map (fun z => z.id) := by
          rw [← hkey]
          exact List.mem_map.mpr ⟨y, hy, rfl⟩
        refine absurd ?_ (List.disjoint_left.mp hnd.2.2 hmem1)
        exact List.mem_flatten.mpr ⟨row'.map (fun z => z.id),
          List.mem_map.mpr ⟨row', hrow', rfl⟩, List.mem_map.mpr ⟨cl, hcl, rfl⟩⟩
      · exact (hfresh row' (List.mem_cons_of_mem _ hrow') cl hcl) hcon
    have hrec := ih (r + 1) ((row.map (fun cl => JVal.str cl.id)).reverse ++ seen) errs
      (fun x hx => hne x (List.mem_cons_of_mem _ hx)) hfresh2 hnd.2.1
    simp only [hcells, hrec]
    simp

theorem geometrySpec_self_aux (p : String) (l : List (List JVal)) :
    ∀ (k : Nat),
    List.filterMap (fun x =>
      if x.2.1.length ≠ x.2.2.length then
        some (p ++ ", linha " ++ Nat.repr x.1 ++ ": número de células alterado de " ++
          Nat.repr x.2.2.length ++ " para " ++ Nat.repr x.2.1.length ++ ".")
      else none) (List.enumFrom k (l.zip l)) = [] := by
  induction l with
  | nil => intro k; rfl
  | cons x xs ih =>
    intro k
    simp only [List.zip_cons_cons, List.enumFrom_cons, List.filterMap_cons]
    rw [if_neg (fun hne => hne rfl)]
    exact ih (k + 1)

theorem geometrySpec_self (p : String) (l : List (List JVal)) :
    geometrySpec p l l = [] := by
  unfold geometrySpec
  rw [if_neg (fun h => h rfl)]
  exact geometrySpec_self_aux p l 0

theorem tableGeometry_self (p : String) (rs : List (List JCell)) :
    tableGeometry p (rs.map (fun row => JVal.arr (row.map cellToJVal)))
      (.arr (rs.map (fun row => JVal.arr (row.map cellToJVal)))) = .ok [] := by
  have hX : rs.map (fun row => JVal.arr (row.map cellToJVal)) =
      (rs.map (fun row => row.map cellToJVal)).map JVal.arr := by
    rw [List.map_map]
    rfl
  rw [hX, tableGeometry_eq_spec, geometrySpec_self]

theorem seenHas_nil (v : JVal) : seenHas [] v = false := rfl

theorem validateBlock_wf (M : List (JVal × JVal)) (i : Nat) (b : Block)
    (seen : List JVal) (hwf : WFBlock b)
    (hmap : mapGet M (.str b.id) = blockToJVal b)
    (hfresh : ∀ s ∈ blockIds b, ¬ seenHas seen (.str s) = true)
    (hnd : (blockIds b).Nodup) :
    validateBlock M i (blockToJVal b) seen =
      .ok (((blockIds b).map JVal.str).reverse ++ seen, []) := by
  obtain ⟨hid, hcase⟩ := hwf
  have hc1 : jsTruthy (blockToJVal b) = true := rfl
  have hc2 : jsTypeof (blockToJVal b) = "object" := rfl
  have hgid : jgetTotal (blockToJVal b) "id" = .str b.id := blockToJVal_id b
  have hgtype : jgetTotal (blockToJVal b) "type" = .str b.type := blockToJVal_type b
  have hidT : jsTruthy (JVal.str b.id) = true := jsTruthy_str_of_ne b.id hid
  have hidS : jsTypeof (JVal.str b.id) = "string" := rfl
  have hseen : seenHas seen (.str b.id) = false := by
    have h := hfresh b.id (by unfold blockIds; exact List.mem_cons_self _ _)
    cases hx : seenHas seen (JVal.str b.id) with
    | false => rfl
    | true => exact absurd hx h
  have hteq : jvalKeyEq (.str b.type) (.str b.type) = true := by
    rw [jvalKeyEq_str_iff]
  rcases hcase with hca | hca | hca | hca | hca
  · -- title
    obtain ⟨htype, htsome, hlnone, hrnone⟩ := hca
    obtain ⟨t, ht⟩ := Option.isSome_iff_exists.mp htsome
    have hgtext : jgetTotal (blockToJVal b) "text" = .str t := blockToJVal_text b t ht
    have hbids : blockIds b = [b.id] := by
      unfold blockIds
      rw [hrnone]
    have hts : jsTypeof (JVal.str t) = "string" := rfl
    simp [validateBlock, hc1, hc2, hgid, hgtype, hidT, hidS, hseen, hmap, hteq,
      hgtext, hbids, htype, hid, hts, validTypesList, jvalKeyEq]
  · -- paragraph
    obtain ⟨htype, htsome, hlnone, hrnone⟩ := hca
    obtain ⟨t, ht⟩ := Option.isSome_iff_exists.mp htsome
    have hgtext : jgetTotal (blockToJVal b) "text" = .str t := blockToJVal_text b t ht
    have hbids : blockIds b = [b.id] := by
      unfold blockIds
      rw [hrnone]
    have hts : jsTypeof (JVal.str t) = "string" := rfl
    simp [validateBlock, hc1, hc2, hgid, hgtype, hidT, hidS, hseen, hmap, hteq,
      hgtext, hbids, htype, hid, hts, validTypesList, jvalKeyEq]
  · -- heading
    obtain ⟨htype, htsome, hrnone, hlsome, hl1⟩ := hca
    obtain ⟨t, ht⟩ := Option.isSome_iff_exists.mp htsome
    obtain ⟨l, hl⟩ := Option.isSome_iff_exists.mp hlsome
    have hgtext : jgetTotal (blockToJVal b) "text" = .str t := blockToJVal_text b t ht
    have hglevel : jgetTotal (blockToJVal b) "level" = .num l :=
      blockToJVal_level b t l ht hl
    have hl1' : 1 ≤ l := by
      rw [hl] at hl1
      simpa using hl1
    have hbids : blockIds b = [b.id] := by
      unfold blockIds
      rw [hrnone]
    have hts : jsTypeof (JVal.str t) = "string" := rfl
    simp [validateBlock, hc1, hc2, hgid, hgtype, hidT, hidS, hseen, hmap, hteq,
      hgtext, hglevel, hbids, htype, hid, hts, validTypesList, jvalKeyEq, isNumGE1,
      hl1']
  · -- list_item
    obtain ⟨htype, htsome, hrnone, hlsome, hl1⟩ := hca
    obtain ⟨t, ht⟩ := Option.isSome_iff_exists.mp htsome
    obtain ⟨l, hl⟩ := Option.isSome_iff_exists.mp hlsome
    have hgtext : jgetTotal (blockToJVal b) "text" = .str t := blockToJVal_text b t ht
    have hglevel : jgetTotal (blockToJVal b) "level" = .num l :=
      blockToJVal_level b t l ht hl
    have hl1' : 1 ≤ l := by
      rw [hl] at hl1
      simpa using hl1
    have hbids : blockIds b = [b.id] := by
      unfold blockIds
      rw [hrnone]
    have hts : jsTypeof (JVal.str t) = "string" := rfl
    simp [validateBlock, hc1, hc2, hgid, hgtype, hidT, hidS, hseen, hmap, hteq,
      hgtext, hglevel, hbids, htype, hid, hts, validTypesList, jvalKeyEq, isNumGE1,
      hl1']
  · -- table
    obtain ⟨htype, htnone, hlnone, hrsome, hcells⟩ := hca
    obtain ⟨rs, hr⟩ := Option.isSome_iff_exists.mp hrsome
    have hgrows : jgetTotal (blockToJVal b) "rows" =
        .arr (rs.map (fun row => JVal.arr (row.map cellToJVal))) :=
      blockToJVal_rows b rs htnone hlnone hr
    have hbids : blockIds b =
        b.id :: (rs.map (fun row => row.map (fun cl => cl.id))).flatten := by
      unfold blockIds
      rw [hr]
    have hcells' : ∀ row ∈ rs, ∀ cl ∈ row, cl.id ≠ "" := by
      intro row hrow cl hcl
      have := hcells row (by rw [hr]; exact hrow) cl hcl
      exact this
    rw [hbids] at hnd hfresh
    simp only [List.nodup_cons] at hnd
    have hfresh2 : ∀ row ∈ rs, ∀ cl ∈ row,
        ¬ seenHas (JVal.str b.id :: seen) (.str cl.id) = true := by
      intro row hrow cl hcl
      rw [seenHas_cons]
      simp only [Bool.or_eq_true, not_or]
      constructor
      · rw [jvalKeyEq_str_iff]
        intro he
        refine hnd.1 ?_
        rw [he]
        exact List.mem_flatten.mpr ⟨row.map (fun z => z.id),
          List.mem_map.mpr ⟨row, hrow, rfl⟩, List.mem_map.mpr ⟨cl, hcl, rfl⟩⟩
      · exact hfresh cl.id (List.mem_cons_of_mem _
          (List.mem_flatten.mpr ⟨row.map (fun z => z.id),
            List.mem_map.mpr ⟨row, hrow, rfl⟩, List.mem_map.mpr ⟨cl, hcl, rfl⟩⟩))
    have hrows := validateRowsLoop_wf (pfxId i (.str b.id)) rs 0
      (JVal.str b.id :: seen) [] hcells' hfresh2 hnd.2
    have hgeo := tableGeometry_self (pfxId i (.str b.id)) rs
    simp only [validateBlock, hc1, hc2, hgid, hgtype, hidT, hidS, hseen, hmap,
      hteq, hgrows, htype, hid, validTypesList, jvalKeyEq, hrows, hgeo]
    simp [hseen, hrows, hgeo, hbids, List.map_flatten, List.map_map,
      Function.comp_def]

theorem validateBlocksLoop_wf (M : List (JVal × JVal)) (bs : List Block) :
    ∀ (i : Nat) (seen : List JVal) (errs : List String),
    (∀ b ∈ bs, WFBlock b) →
    (∀ b ∈ bs, mapGet M (.str b.id) = blockToJVal b) →
    ((bs.map blockIds).flatten).Nodup →
    (∀ s ∈ (bs.map blockIds).flatten, ¬ seenHas seen (.str s) = true) →
    validateBlocksLoop M (bs.map blockToJVal) i seen errs = .ok errs := by
  induction bs with
  | nil =>
    intro i seen errs _ _ _ _
    rfl
  | cons b rest ih =>
    intro i seen errs hwf hmap hnd hfresh
    simp only [List.map_cons, List.flatten_cons, List.nodup_append] at hnd
    simp only [List.map_cons, validateBlocksLoop]
    have hb := validateBlock_wf M i b seen (hwf b (List.mem_cons_self _ _))
      (hmap b (List.mem_cons_self _ _))
      (fun s hs => hfresh s (by
        simp only [List.map_cons, List.flatten_cons, List.mem_append]
        exact Or.inl hs))
      hnd.1
    simp only [hb]
    rw [List.append_nil]
    have hfresh2 : ∀ s ∈ (rest.map blockIds).flatten,
        ¬ seenHas (((blockIds b).map JVal.str).reverse ++ seen) (.str s) = true := by
      intro s hs hcon
      unfold seenHas at hcon
      rw [List.any_append, Bool.or_eq_true] at hcon
      rcases hcon with hcon | hcon
      · rw [List.any_reverse, List.any_eq_true] at hcon
        rcases hcon with ⟨x, hxmem, hkey⟩
        rw [List.mem_map] at hxmem
        rcases hxmem with ⟨y, hy, rfl⟩
        rw [jvalKeyEq_str_iff] at hkey
        exact (List.disjoint_left.mp hnd.2.2 hy) (hkey ▸ hs)
      · exact (hfresh s (by
          simp only [List.map_cons, List.flatten_cons, List.mem_append]
          exact Or.inr hs)) hcon
    exact ih (i + 1) (((blockIds b).map JVal.str).reverse ++ seen) errs
      (fun x hx => hwf x (List.mem_cons_of_mem _ hx))
      (fun x hx => hmap x (List.mem_cons_of_mem _ hx)) hnd.2.1 hfresh2

/-- **C2, amended.** Self-validation holds for every Document of the §3
shape: well-formed blocks (string text, level ≥ 1 where applicable, non-empty
ids) with globally unique ids validate against themselves with
`{valid: true, errors: []}`. -/
theorem selfValidation_of_wellFormed (d : Document) (h : WFDoc d) :
    validateModifiedJson (docToJVal d) (docToJVal d) = .ok ⟨true, []⟩ := by
  obtain ⟨hwf, hnd⟩ := h
  have hnd' : ((d.blocks.map blockIds).flatten).Nodup := hnd
  have hidnd : (d.blocks.map (fun b => b.id)).Nodup :=
    List.Nodup.sublist (map_id_sublist d.blocks) hnd'
  have h1 : jsTruthy (docToJVal d) = true := rfl
  have h2 : jsTypeof (docToJVal d) = "object" := rfl
  have hmetaT : jsTruthy (jgetTotal (docToJVal d) "metadata") = true := rfl
  have hmetaO : jsTypeof (jgetTotal (docToJVal d) "metadata") = "object" := rfl
  have hblocks : jgetTotal (docToJVal d) "blocks" =
      .arr (d.blocks.map blockToJVal) := rfl
  have hmload := buildMapLoop_append d.blocks [] (fun b _ => by simp) hidnd
  have hbuild : buildOrigMap (docToJVal d) =
      .ok (d.blocks.map (fun b => (JVal.str b.id, blockToJVal b))) := by
    unfold buildOrigMap
    rw [if_pos h1]
    simp only [hblocks]
    rw [hmload]
    simp
  have hloop := validateBlocksLoop_wf
    (d.blocks.map (fun b => (JVal.str b.id, blockToJVal b))) d.blocks 0 [] []
    hwf (fun b hb => mapGet_pairs d.blocks b hidnd hb) hnd'
    (fun s _ => by simp [seenHas_nil])
  have hmE : (if ¬ jsTruthy (jgetTotal (docToJVal d) "metadata") ∨
      jsTypeof (jgetTotal (docToJVal d) "metadata") ≠ "object" then
        ["Campo \"metadata\" ausente ou inválido."]
      else []) = [] :=
    if_neg (fun hcon => hcon.elim (fun hh => hh hmetaT) (fun hh => hh hmetaO))
  unfold validateModifiedJson
  rw [if_neg (fun hcon => hcon.elim (fun hh => hh h1) (fun hh => hh h2))]
  rw [hblocks]
  simp only [hbuild, hmE, hloop]
  rfl

/-- Witness for C2's amended theorem: the extracted `Hello` document is
well-formed and self-validates. -/
theorem selfValidation_of_wellFormed_witness :
    WFDoc exHelloDoc ∧
    validateModifiedJson (docToJVal exHelloDoc) (docToJVal exHelloDoc) =
      .ok ⟨true, []⟩ :=
  ⟨by decide, selfValidation_of_wellFormed exHelloDoc (by decide)⟩

/-! ### Lemmas towards C6 (validator totality on safe originals) -/

theorem mapSet_values (m : List (JVal × JVal)) (k v : JVal) (q : JVal × JVal)
    (h : q ∈ mapSet m k v) : q ∈ m ∨ q.2 = v := by
  unfold mapSet at h
  split at h
  · rcases List.mem_map.mp h with ⟨p, hp, he⟩
    by_cases hk : jvalKeyEq p.1 k = true
    · rw [if_pos hk] at he
      right
      rw [← he]
    · rw [if_neg hk] at he
      left
      rw [← he]
      exact hp
  · rcases List.mem_append.mp h with h | h
    · exact Or.inl h
    · right
      simp only [List.mem_singleton] at h
      rw [h]

theorem buildMapLoop_total (l : List JVal) :
    ∀ (m : List (JVal × JVal)), (∀ e ∈ l, ¬ jsNullish e = true) →
    ∃ M, buildMapLoop l m = .ok M ∧ ∀ q ∈ M, q.2 ∈ l ∨ q ∈ m := by
  induction l with
  | nil =>
    intro m _
    exact ⟨m, rfl, fun q hq => Or.inr hq⟩
  | cons b rest ih =>
    intro m hnn
    have hb : jgetOrThrow b "id" = .ok (jgetTotal b "id") := by
      unfold jgetOrThrow
      rw [if_neg (hnn b (List.mem_cons_self _ _))]
    obtain ⟨M, hok, hval⟩ := ih (mapSet m (jgetTotal b "id") b)
      (fun e he => hnn e (List.mem_cons_of_mem _ he))
    refine ⟨M, ?_, ?_⟩
    · simp only [buildMapLoop, hb]
      exact hok
    · intro q hq
      rcases hval q hq with h | h
      · exact Or.inl (List.mem_cons_of_mem _ h)
      · rcases mapSet_values m (jgetTotal b "id") b q h with h2 | h2
        · exact Or.inr h2
        · exact Or.inl (h2 ▸ List.mem_cons_self _ _)

/-- The safety payload carried for every value stored in the original map. -/
def SafeVal (v : JVal) : Prop :=
  ¬ jsNullish v = true ∧
    (jvalKeyEq (jgetTotal v "type") (.str "table") = true →
      ¬ jsNullish (jgetTotal v "rows") = true)

theorem buildOrigMap_total (o : JVal) (hsafe : originalSafe o) :
    ∃ M, buildOrigMap o = .ok M ∧ ∀ q ∈ M, SafeVal q.2 := by
  unfold originalSafe origElems at hsafe
  unfold buildOrigMap
  by_cases ht : jsTruthy o = true
  · rw [if_pos ht]
    rw [if_pos ht] at hsafe
    cases hblk : jgetTotal o "blocks" with
    | arr l =>
      rw [hblk] at hsafe
      obtain ⟨M, hok, hval⟩ := buildMapLoop_total l [] (fun e he => (hsafe e he).1)
      refine ⟨M, hok, fun q hq => ?_⟩
      rcases hval q hq with h | h
      · exact hsafe q.2 h
      · exact absurd h (List.not_mem_nil _)
    | undefined => exact ⟨[], rfl, by simp⟩
    | null => exact ⟨[], rfl, by simp⟩
    | bool x => exact ⟨[], rfl, by simp⟩
    | num x => exact ⟨[], rfl, by simp⟩
    | str x => exact ⟨[], rfl, by simp⟩
    | obj x => exact ⟨[], rfl, by simp⟩
  · rw [if_neg ht]
    exact ⟨[], rfl, by simp⟩

theorem mapGet_cases (M : List (JVal × JVal)) (k : JVal) :
    mapGet M k = .undefined ∨ ∃ q ∈ M, mapGet M k = q.2 := by
  unfold mapGet
  cases hf : M.find? (fun p => jvalKeyEq p.1 k) with
  | none => exact Or.inl rfl
  | some q => exact Or.inr ⟨q, List.mem_of_find?_eq_some hf, rfl⟩

theorem tableGeometry_total (p : String) (bRows : List JVal) (origRows : JVal)
    (h : ¬ jsNullish origRows = true) :
    ∃ es, tableGeometry p bRows origRows = .ok es := by
  unfold tableGeometry
  have hj : jgetOrThrow origRows "length" = .ok (jgetTotal origRows "length") := by
    unfold jgetOrThrow
    rw [if_neg h]
  simp only [hj]
  split
  · exact ⟨_, rfl⟩
  · exact ⟨_, rfl⟩

theorem validateBlock_total (M : List (JVal × JVal))
    (hM : ∀ q ∈ M, SafeVal q.2) (i : Nat) (block : JVal) (seen : List JVal) :
    ∃ r, validateBlock M i block seen = .ok r := by
  simp only [validateBlock]
  split
  · exact ⟨_, rfl⟩
  · split
    · exact ⟨_, rfl⟩
    · split
      · exact ⟨_, rfl⟩
      · split
        · split
          · split
            · rename_i e heq
              exfalso
              by_cases hg : jsTruthy (mapGet M (jgetTotal block "id")) = true ∧
                  jvalKeyEq (jgetTotal (mapGet M (jgetTotal block "id")) "type")
                    (.str "table") = true
              · rw [if_pos hg] at heq
                rcases mapGet_cases M (jgetTotal block "id") with hu | ⟨q, hq, hqe⟩
                · rw [hu] at hg
                  exact absurd hg.1 (by simp [jsTruthy])
                · rw [hqe] at heq hg
                  obtain ⟨es, hok⟩ := tableGeometry_total _ _ _ ((hM q hq).2 hg.2)
                  rw [hok] at heq
                  exact Except.noConfusion heq
              · rw [if_neg hg] at heq
                exact Except.noConfusion heq
            · exact ⟨_, rfl⟩
          · exact ⟨_, rfl⟩
        · exact ⟨_, rfl⟩

theorem validateBlocksLoop_total (M : List (JVal × JVal))
    (hM : ∀ q ∈ M, SafeVal q.2) (bl : List JVal) :
    ∀ (i : Nat) (seen : List JVal) (errs : List String),
    ∃ es, validateBlocksLoop M bl i seen errs = .ok es := by
  induction bl with
  | nil =>
    intro i seen errs
    exact ⟨errs, rfl⟩
  | cons b rest ih =>
    intro i seen errs
    obtain ⟨r, hr⟩ := validateBlock_total M hM i b seen
    simp only [validateBlocksLoop, hr]
    exact ih (i + 1) r.1 (errs ++ r.2)

/-- **C6, amended.** Whenever the Validator returns at all, the result is a
`{valid, errors}` pair with `valid` iff `errors` is empty; and for every
original on which it cannot throw (non-nullish original blocks, rows present
on original tables), it returns for every candidate whatsoever. -/
theorem validator_totality_amended :
    (∀ (c o : JVal) (r : VResult), validateModifiedJson c o = .ok r →
      (r.valid = true ↔ r.errors = [])) ∧
    (∀ o : JVal, originalSafe o → ∀ c : JVal, ∃ r, validateModifiedJson c o = .ok r) := by
  constructor
  · intro c o r h
    unfold validateModifiedJson at h
    split at h
    · injection h with h
      rw [← h]
      simp
    · split at h
      · split at h
        · exact absurd h (by simp)
        · split at h
          · exact absurd h (by simp)
          · injection h with h
            rw [← h]
            simp [List.isEmpty_iff]
      · injection h with h
        rw [← h]
        simp
  · intro o hsafe c
    obtain ⟨M, hok, hMprop⟩ := buildOrigMap_total o hsafe
    unfold validateModifiedJson
    split
    · exact ⟨_, rfl⟩
    · split
      · rename_i bl heq
        simp only [hok]
        obtain ⟨es, hes⟩ := validateBlocksLoop_total M hMprop bl 0 []
          (if ¬ jsTruthy (jgetTotal c "metadata") = true ∨
              jsTypeof (jgetTotal c "metadata") ≠ "object" then
            ["Campo \"metadata\" ausente ou inválido."]
          else [])
        simp only [hes]
        exact ⟨_, rfl⟩
      · exact ⟨_, rfl⟩

/-- Witness for C6's amended theorem on a concrete safe original. -/
theorem validator_totality_amended_witness :
    originalSafe exOrigHeading ∧
    ∃ r, validateModifiedJson exCandLevel2 exOrigHeading = .ok r :=
  ⟨by unfold originalSafe; decide,
   validator_totality_amended.2 exOrigHeading (by unfold originalSafe; decide)
     exCandLevel2⟩

/-- Witness for C7: `1. OBJETIVO` is classified by the pattern rule. -/
theorem classify_precedence_witness :
    styleHeadingLevel exNumberedPara [] = none ∧
    outlineHeadingLevel exNumberedPara = none ∧
    detectHeadingByPattern (jsTrim (getPlainText exNumberedPara)) = some 1 ∧
    classifyParagraph exNumberedPara [] =
      ⟨"heading", some (Int.ofNat 1), jsTrim (getFormattedText exNumberedPara)⟩ :=
  ⟨by rfl, by rfl, by rfl,
   (classify_precedence exNumberedPara []).2.2.1 (by rfl) (by rfl) 1 (by rfl)⟩

end DocxCodec
